import Mathlib

/-!
# Verification of the keystroke-log analyzer (`src/analyzer.py`)

This file gives a shallow embedding of the core analysis engine of the
repository — `KeyloggerAnalyzer` in `src/analyzer.py` — and proves (or
refutes) the frozen claims about it.

Modelling conventions, applied uniformly:

* Python `float` arithmetic is modelled exactly over `ℚ`.
* A timestamp is modelled by its parsed value in seconds as `Option ℚ`:
  `none` models an event whose `timestamp` field is missing or fails to
  parse under `"%Y-%m-%d %H:%M:%S.%f"` (both raise in Python wherever the
  parse is not guarded by `try`), and `some t` models a parseable
  timestamp denoting `t` seconds.  Differences of parsed datetimes
  (`total_seconds()`) become differences of the rationals.
* The optional event fields `key`, `command_type`, `hold_time` and
  `application` are `Option`s; for these the source treats an absent
  field and a `null` value alike (every access goes through
  `event.get(...)` or an `'f' in event and event['f'] is not None`
  guard), so `none` models both.  `flight_time` is different: line 41 of
  `calculate_typing_metrics` reads `event['flight_time']` with no
  `'flight_time' in event` guard, so on a hold-carrying event whose dict
  lacks the key the source raises `KeyError` while a present-but-`null`
  value is merely skipped.  `flight_time` is therefore modelled
  two-level, as `Option (Option ℚ)`: `none` is an absent key,
  `some none` a present `null`, and `some (some q)` a present value;
  `flightVal` collapses it to the `event.get('flight_time')` view used
  by every other (guarded) access.
* Python's `round(x, n)` (round half to even at `n` decimal digits) is
  modelled by `pyRound3` / `pyRound2` below.
* `numpy.std` is the square root of the population variance, which is
  irrational in general.  The embedding stores the exact population
  variance (`hold_time_var`, `flight_time_var`) instead of the rounded
  standard deviation, and expresses every comparison the source makes on
  the rounded standard deviation by the exactly equivalent comparison on
  the variance (the equivalences are derived at the point of use).
* Functions that can raise in Python return `Option`, with `none`
  modelling a raised exception escaping the function.
-/

/-- One input event of the log, as consumed by `KeyloggerAnalyzer`
(`self.data` is a JSON list of such records).  Field names follow the
JSON keys read by `src/analyzer.py`. -/
structure Event where
  timestamp : Option ℚ
  key : Option String
  command_type : Option String
  hold_time : Option ℚ
  flight_time : Option (Option ℚ)
  application : Option String
deriving DecidableEq, Repr

/-- The `event.get('flight_time')` view of the two-level `flight_time`
field: an absent key and a present `null` both read as `none`.  This is
the view taken by every guarded access in the source (lines 112, 153
and 297); only line 41 of `calculate_typing_metrics` distinguishes the
two levels by raising on an absent key. -/
def Event.flightVal (e : Event) : Option ℚ := e.flight_time.bind id

/-- Round half to even (Python's `round` tie-breaking rule) to an integer. -/
def roundHalfEven (q : ℚ) : ℤ :=
  let f := ⌊q⌋
  let r := q - (f : ℚ)
  if r < 1/2 then f
  else if (1/2 : ℚ) < r then f + 1
  else if f % 2 = 0 then f else f + 1

/-- Python's `round(x, 3)` in exact arithmetic. -/
def pyRound3 (q : ℚ) : ℚ := (roundHalfEven (q * 1000) : ℚ) / 1000

/-- Python's `round(x, 2)` in exact arithmetic. -/
def pyRound2 (q : ℚ) : ℚ := (roundHalfEven (q * 100) : ℚ) / 100

/-- Arithmetic mean of a list (`numpy.mean`); `0` on the empty list,
whose use is always guarded in the source. -/
def listMean (xs : List ℚ) : ℚ := xs.sum / (xs.length : ℚ)

/-- Population variance of a list (the square of `numpy.std`). -/
def listVar (xs : List ℚ) : ℚ :=
  ((xs.map (fun x => (x - listMean xs) ^ 2)).sum) / (xs.length : ℚ)

/-- Result of `calculate_typing_metrics`.  The source returns the dict
`{hold_time_avg, hold_time_std, flight_time_avg, flight_time_std,
total_events}` with the avg/std entries rounded to 3 decimal places;
here the two `*_std` entries (`round(numpy.std(xs), 3)`, irrational
before rounding) are represented by the exact population variance of
the same series, from which every use the source makes of them is
expressed equivalently. -/
structure TypingMetrics where
  hold_time_avg : ℚ
  hold_time_var : ℚ
  flight_time_avg : ℚ
  flight_time_var : ℚ
  total_events : ℕ
deriving DecidableEq, Repr

/-- `calculate_typing_metrics` (src/analyzer.py lines 27–54): filters to
events with a non-null `hold_time` (`valid_events`) and returns all
zeros when there are none; otherwise it takes the `hold_time` series of
those events and the `flight_time` series *of those same events*
(non-null only), returning rounded mean and deviation of each plus the
count of valid events.  The flight comprehension at line 41 reads
`event['flight_time']` unguarded, so if any valid event's dict lacks
the `flight_time` key the function raises `KeyError` — modelled by
`none` when not every valid event has the key present. -/
def calculate_typing_metrics (l : List Event) : Option TypingMetrics :=
  let valid_events := l.filter (fun e => e.hold_time.isSome)
  if valid_events.isEmpty then
    some { hold_time_avg := 0, hold_time_var := 0
           flight_time_avg := 0, flight_time_var := 0, total_events := 0 }
  else if valid_events.all (fun e => e.flight_time.isSome) then
    let hold_times := valid_events.filterMap (fun e => e.hold_time)
    let flight_times := valid_events.filterMap (fun e => e.flightVal)
    let hold_time_avg := if hold_times.isEmpty then 0 else listMean hold_times
    let hold_time_var := if hold_times.isEmpty then 0 else listVar hold_times
    let flight_time_avg := if flight_times.isEmpty then 0 else listMean flight_times
    let flight_time_var := if flight_times.isEmpty then 0 else listVar flight_times
    some { hold_time_avg := pyRound3 hold_time_avg
           hold_time_var := hold_time_var
           flight_time_avg := pyRound3 flight_time_avg
           flight_time_var := flight_time_var
           total_events := valid_events.length }
  else none

/-- The `hold_time` series over the whole log (used by
`calculate_outlier_count`, which — unlike `calculate_typing_metrics` —
draws both series from all of `self.data`). -/
def holdSeries (l : List Event) : List ℚ := l.filterMap (fun e => e.hold_time)

/-- The `flight_time` series over the whole log (guarded access:
absent and `null` alike are skipped). -/
def flightSeries (l : List Event) : List ℚ := l.filterMap (fun e => e.flightVal)

/-- Result of `calculate_outlier_count`. -/
structure OutlierCounts where
  hold_time_outliers : ℕ
  flight_time_outliers : ℕ
deriving DecidableEq, Repr

/-- Count of samples whose absolute standard score exceeds `t`
(`int(numpy.sum(numpy.abs(zscore(xs)) > t))`).  When the series has zero
variance, `scipy.stats.zscore` divides by zero and yields `nan` for
every sample; every `nan > t` comparison is false, so the count is `0` —
modelled by the `v = 0` branch.  For positive variance the test
`|x − μ| / √v > t` is expressed in exact arithmetic as
`t < 0 ∨ t² · v < (x − μ)²`, which is equivalent since `√v > 0`. -/
def zscoreOutlierCount (xs : List ℚ) (t : ℚ) : ℕ :=
  let μ := listMean xs
  let v := listVar xs
  if v = 0 then 0
  else (xs.filter (fun x => decide (t < 0) || decide (t ^ 2 * v < (x - μ) ^ 2))).length

/-- `calculate_outlier_count` (src/analyzer.py lines 150–168): for each
of the hold/flight series over the whole log, counts standard-score
outliers when the series has more than one sample, else `0`. -/
def calculate_outlier_count (l : List Event) (t : ℚ) : OutlierCounts :=
  { hold_time_outliers :=
      if 1 < (holdSeries l).length then zscoreOutlierCount (holdSeries l) t else 0
    flight_time_outliers :=
      if 1 < (flightSeries l).length then zscoreOutlierCount (flightSeries l) t else 0 }

/-- The fixed suspicious-command set of `analyze_suspicious_commands`. -/
def suspiciousCommandSet : List String :=
  ["paste", "copy", "cut", "backspace", "cursor_movement"]

/-- `event.get('command_type') in suspicious_commands` (a missing or
null field is not in the list). -/
def isSuspiciousCmd (c : Option String) : Bool :=
  match c with
  | some s => s ∈ suspiciousCommandSet
  | none => false

/-- Bump a `Counter`-style association list (insertion order of first
occurrence, as Python's `Counter`/`dict` preserve). -/
def bumpCount : List (String × ℕ) → String → List (String × ℕ)
  | [], k => [(k, 1)]
  | (a, n) :: rest, k =>
      if a = k then (a, n + 1) :: rest else (a, n) :: bumpCount rest k

/-- Contribution of one consecutive pair inside a run of suspicious
commands: `|Δt| + |Δhold_time| + |Δflight_time|`, with missing
hold/flight values read as `0` (`event.get(f) or 0`); a pair whose
timestamps do not both parse is skipped (`except Exception: continue`)
and contributes `0`. -/
def pairContribution (a b : Event) : ℚ :=
  match a.timestamp, b.timestamp with
  | some t1, some t2 =>
      |t2 - t1| + |b.hold_time.getD 0 - a.hold_time.getD 0| +
        |b.flightVal.getD 0 - a.flightVal.getD 0|
  | _, _ => 0

/-- `_calculate_sequence_manhattan` (src/analyzer.py lines 95–117):
sum of `pairContribution` over consecutive pairs; `0` for sequences of
fewer than two events. -/
def calculate_sequence_manhattan (s : List Event) : ℚ :=
  if s.length < 2 then 0
  else ((s.zip s.tail).map (fun p => pairContribution p.1 p.2)).sum

/-- State of the run-splitting loop of `analyze_suspicious_commands`:
per-command counts, the closed runs so far, and the currently open run. -/
structure CmdScanState where
  counts : List (String × ℕ)
  sequences : List (List Event)
  current : List Event
deriving DecidableEq, Repr

/-- One iteration of the loop of `analyze_suspicious_commands`: a
suspicious-command event extends the open run and bumps its count; any
other event closes a non-empty open run. -/
def cmdScanStep (s : CmdScanState) (e : Event) : CmdScanState :=
  if isSuspiciousCmd e.command_type then
    { counts := bumpCount s.counts ((e.command_type).getD "")
      sequences := s.sequences
      current := s.current ++ [e] }
  else if s.current.isEmpty then s
  else { counts := s.counts, sequences := s.sequences ++ [s.current], current := [] }

/-- The maximal runs of consecutive suspicious-command events
(`command_sequences` after the loop, with a trailing open run closed). -/
def commandRuns (l : List Event) : CmdScanState :=
  let s := l.foldl cmdScanStep { counts := [], sequences := [], current := [] }
  if s.current.isEmpty then s
  else { counts := s.counts, sequences := s.sequences ++ [s.current], current := [] }

/-- Result of `analyze_suspicious_commands`. -/
structure SuspiciousAnalysis where
  command_counts : List (String × ℕ)
  suspicious_percentage : ℚ
  total_commands : ℕ
  avg_manhattan_distance : ℚ
  command_sequences : ℕ
deriving DecidableEq, Repr

/-- `analyze_suspicious_commands` (src/analyzer.py lines 56–93). -/
def analyze_suspicious_commands (l : List Event) : SuspiciousAnalysis :=
  let st := commandRuns l
  let manhattan_distances :=
    (st.sequences.filter (fun s => 1 < s.length)).map calculate_sequence_manhattan
  let total_commands := (st.counts.map Prod.snd).sum
  let total_events := l.length
  let suspicious_percentage :=
    if 0 < total_events then (total_commands : ℚ) / total_events * 100 else 0
  let avg_manhattan :=
    if manhattan_distances.isEmpty then 0
    else manhattan_distances.sum / (manhattan_distances.length : ℚ)
  { command_counts := st.counts
    suspicious_percentage := pyRound2 suspicious_percentage
    total_commands := total_commands
    avg_manhattan_distance := pyRound2 avg_manhattan
    command_sequences := st.sequences.length }

/-- `event.get('application', 'Unknown')`. -/
def appOf (e : Event) : String := e.application.getD "Unknown"

/-- Per-application grouping of `calculate_manhattan_distance`
(`app_events`): a dict in first-occurrence order mapping each
application to its events in log order. -/
def bumpApp : List (String × List Event) → String → Event → List (String × List Event)
  | [], a, e => [(a, [e])]
  | (b, es) :: rest, a, e =>
      if b = a then (b, es ++ [e]) :: rest else (b, es) :: bumpApp rest a e

/-- The `app_events` dict of `calculate_manhattan_distance`. -/
def groupByApp (l : List Event) : List (String × List Event) :=
  l.foldl (fun acc e => bumpApp acc (appOf e) e) []

/-- One value of the `app_metrics` dict of `calculate_manhattan_distance`. -/
structure AppMetrics where
  duration : ℚ
  typing_rate : ℚ
  suspicious_ratio : ℚ
  event_count : ℕ
deriving DecidableEq, Repr

/-- Body of the per-application loop of `calculate_manhattan_distance`
for an application with at least two events: parses the first and last
timestamps (unguarded `strptime` — `none` models the raised exception)
and computes duration, typing rate and the paste/copy/cut ratio. -/
def appMetricsOf (es : List Event) : Option AppMetrics :=
  match es.head?.bind (fun e => e.timestamp), es.getLast?.bind (fun e => e.timestamp) with
  | some t1, some t2 =>
      let duration := t2 - t1
      let typing_rate := if 0 < duration then (es.length : ℚ) / duration else 0
      let suspicious_count :=
        (es.filter (fun e =>
          match e.command_type with
          | some s => s ∈ ["paste", "copy", "cut"]
          | none => false)).length
      let suspicious_ratio :=
        if 0 < es.length then (suspicious_count : ℚ) / es.length else 0
      some { duration := pyRound2 duration
             typing_rate := pyRound2 typing_rate
             suspicious_ratio := pyRound2 suspicious_ratio
             event_count := es.length }
  | _, _ => none

/-- The per-application loop of `calculate_manhattan_distance`:
applications with fewer than two events are skipped; a timestamp-parse
failure in a retained application aborts the whole computation. -/
def appMetricsLoop : List (String × List Event) → Option (List (String × AppMetrics))
  | [] => some []
  | (a, es) :: rest =>
      if 2 ≤ es.length then
        match appMetricsOf es with
        | some m => (appMetricsLoop rest).map (fun r => (a, m) :: r)
        | none => none
      else appMetricsLoop rest

/-- `calculate_manhattan_distance` (src/analyzer.py lines 120–148): the
per-application metrics dict, keyed by application, restricted to
applications with at least two events. -/
def calculate_manhattan_distance (l : List Event) : Option (List (String × AppMetrics)) :=
  appMetricsLoop (groupByApp l)

/-- `_format_key` (src/analyzer.py lines 171–206): a key string not of
the `Key.`-dotted form renders bracketed-uppercase when it is `c`, `v`
or `x` (case-insensitively) and passes through unchanged otherwise; a
`Key.`-dotted name renders through the fixed `special_keys` table, with
unknown names (and all modifiers) rendering to the empty string. -/
def format_key (key : String) : String :=
  if ¬ key.startsWith "Key." then
    if key.toLower ∈ ["c", "v", "x"] then "[" ++ key.toUpper ++ "]" else key
  else
    let k := key.drop 4
    if k = "space" then " "
    else if k = "enter" then "  ↵  "
    else if k = "tab" then "  →|  "
    else if k = "backspace" then "  |←  "
    else if k = "delete" then "  del  "
    else if k = "up" then "  ↑  "
    else if k = "down" then "  ↓  "
    else if k = "left" then "  ←  "
    else if k = "right" then "  →  "
    else ""

/-- `event.get('key') in ['Key.ctrl', ..., 'Key.cmd_r']` — the modifier
test of step 1 of the segmenter loop. -/
def isCtrlKey (k : Option String) : Bool :=
  match k with
  | some s => s ∈ ["Key.ctrl", "Key.ctrl_l", "Key.ctrl_r", "Key.cmd", "Key.cmd_l", "Key.cmd_r"]
  | none => false

/-- `event.get('key') in ['c', 'v', 'x']` — the combo test of step 2. -/
def isCvxKey (k : Option String) : Bool :=
  match k with
  | some s => s ∈ ["c", "v", "x"]
  | none => false

/-- Python truthiness of `event.get('key')`: present and non-empty. -/
def keyTruthy (k : Option String) : Bool :=
  match k with
  | some s => s ≠ ""
  | none => false

/-- `{'c': 'copy', 'v': 'paste', 'x': 'cut'}[event['key']]`, only ever
applied under `isCvxKey`. -/
def commandNameOf (k : Option String) : String :=
  if k = some "c" then "copy" else if k = some "v" then "paste" else "cut"

/-- One entry of the segment list produced by `analyze_text_segments`:
either a `{'type': 'typing', ...}` dict or a `{'type': 'command', ...}`
dict.  The `time` of a command and the start/end times of a typing
segment are modelled by the parsed timestamp values. -/
inductive Segment where
  | typing (text : String) (start_time end_time : Option ℚ) (is_suspicious : Bool)
  | command (command : String) (time : ℚ)
deriving DecidableEq, Repr

/-- `_analyze_segment_manhattan` (src/analyzer.py lines 292–310): false
for fewer than two contributing events or when either of the segment's
hold/flight series is empty; otherwise compares the Manhattan distance
of the segment's mean hold/flight times from the baseline against half
the summed baseline. -/
def analyze_segment_manhattan (events : List Event) (base_hold_time base_flight_time : ℚ) : Bool :=
  if events.length < 2 then false
  else
    let hold_times := events.filterMap (fun e => e.hold_time)
    let flight_times := events.filterMap (fun e => e.flightVal)
    if hold_times.isEmpty || flight_times.isEmpty then false
    else
      decide ((base_hold_time + base_flight_time) * (1/2) <
        |listMean hold_times - base_hold_time| + |listMean flight_times - base_flight_time|)

/-- Loop state of `analyze_text_segments`: the segments emitted so far,
the open typing buffer (`current_text` with its underlying
`segment_events`), the bookkeeping times and the `last_was_ctrl` flag. -/
structure SegState where
  segments : List Segment
  currentText : List String
  segmentEvents : List Event
  lastEventTime : Option ℚ
  segmentStartTime : Option ℚ
  lastWasCtrl : Bool
deriving DecidableEq, Repr

/-- Initial state of the segmenter loop. -/
def initSegState : SegState :=
  { segments := [], currentText := [], segmentEvents := []
    lastEventTime := none, segmentStartTime := none, lastWasCtrl := false }

/-- Flush a non-empty typing buffer as a completed typing segment
(`text` is the concatenation of the collected formatted keys, start/end
are `segment_start_time` / `last_event_time`, suspicion from
`_analyze_segment_manhattan`); a no-op on an empty buffer. -/
def flushState (bh bf : ℚ) (s : SegState) : SegState :=
  if s.currentText.isEmpty then s
  else
    { s with
      segments := s.segments ++
        [Segment.typing (String.join s.currentText) s.segmentStartTime s.lastEventTime
          (analyze_segment_manhattan s.segmentEvents bh bf)]
      currentText := []
      segmentEvents := [] }

/-- The pause check of step 3 of the segmenter loop: when a previous
retained-key time exists and the pause to the current event exceeds 2.0
seconds, flush the buffer and restart the segment at the current time;
otherwise leave the state unchanged. -/
def applyGap (bh bf t : ℚ) (s : SegState) : SegState :=
  match s.lastEventTime with
  | some lt =>
      if 2 < t - lt then { flushState bh bf s with segmentStartTime := some t }
      else s
  | none => s

/-- Appending a formatted key to the buffer: a key formatting to the
empty string is dropped, any other formatted key is appended together
with its underlying event. -/
def appendKey (fk : String) (e : Event) (s : SegState) : SegState :=
  if fk = "" then s
  else { s with currentText := s.currentText ++ [fk]
                segmentEvents := s.segmentEvents ++ [e] }

/-- Step 3 of the segmenter loop (an event that is neither a modifier
nor a detected combo): clear the `last_was_ctrl` flag; if the key is
truthy, restart the segment start time on an empty buffer, apply the
pause check, and append the formatted key; always record the event
time as the new `last_event_time`.  A falsy key only clears the flag. -/
def ordinaryStep (bh bf t : ℚ) (e : Event) (s : SegState) : SegState :=
  let s1 : SegState := { s with lastWasCtrl := false }
  if keyTruthy e.key then
    let s2 := if s1.currentText.isEmpty then { s1 with segmentStartTime := some t } else s1
    let s3 := applyGap bh bf t s2
    let s4 := appendKey (format_key (e.key.getD "")) e s3
    { s4 with lastEventTime := some t }
  else s1

/-- One iteration of the loop of `analyze_text_segments`
(src/analyzer.py lines 223–278).  The unguarded
`datetime.strptime(event['timestamp'], ...)` at the top of the loop is
modelled by failing (`none`) whenever the timestamp is missing or
unparsable. -/
def segStep (bh bf : ℚ) (s : SegState) (e : Event) : Option SegState :=
  match e.timestamp with
  | none => none
  | some t =>
      if isCtrlKey e.key then some { s with lastWasCtrl := true }
      else if s.lastWasCtrl && isCvxKey e.key then
        let s1 := flushState bh bf s
        some { s1 with
          segments := s1.segments ++ [Segment.command (commandNameOf e.key) t]
          lastWasCtrl := false }
      else some (ordinaryStep bh bf t e s)

/-- The segmenter loop run from a given state over a list of events. -/
def segRun (bh bf : ℚ) (l : List Event) (s : SegState) : Option SegState :=
  l.foldlM (segStep bh bf) s

/-- `analyze_text_segments` (src/analyzer.py lines 208–290): the
baseline comes from `calculate_typing_metrics` on the same log (line
217, so a `KeyError` raised there propagates); the loop runs over all
events and a final non-empty buffer is flushed. -/
def analyze_text_segments (l : List Event) : Option (List Segment) :=
  (calculate_typing_metrics l).bind (fun tm =>
    (segRun tm.hold_time_avg tm.flight_time_avg l initSegState).map
      (fun s => (flushState tm.hold_time_avg tm.flight_time_avg s).segments))

/-- Tests a segment for `seg["type"] == "typing"`. -/
def isTypingSeg : Segment → Bool
  | Segment.typing _ _ _ _ => true
  | Segment.command _ _ => false

/-- `seg.get("is_suspicious")` of a typing segment. -/
def segSuspicious : Segment → Bool
  | Segment.typing _ _ _ b => b
  | Segment.command _ _ => false

/-- The report dict built by `generate_report`.  The `file_analyzed` and
`analysis_date` entries (file-system metadata and the wall clock) and
the `suspicious_reasons` list of display strings with
Python-`format`ted numbers are outside the analysis core and are not
modelled; every claim concerns the remaining fields. -/
structure Report where
  typing_metrics : TypingMetrics
  suspicious_commands : SuspiciousAnalysis
  application_metrics : List (String × AppMetrics)
  text_segments : List Segment
  is_suspicious : Bool
  suspicious_typing_ratio : ℚ
  outlier_counts : OutlierCounts
  conclusion : String
deriving DecidableEq, Repr

/-- Pure body of `generate_report` (src/analyzer.py lines 312–364),
given the results of the two fallible analyses.  The two
timing-irregularity tests compare the *rounded standard deviations*
against `0.2` and `0.3`; on the stored exact variances these tests are
equivalent to `v > 0.2005²` and `v > 0.3005²` respectively, because
`round(√v, 3) > c` iff `roundHalfEven(1000·√v) ≥ 1000·c + 1` iff
`1000·√v > 1000·c + 1/2` (the tie `1000·c + 1/2` rounds down to the
even integer `1000·c`), i.e. iff `v > (c + 1/2000)²`. -/
def buildReport (l : List Event) (typing_metrics : TypingMetrics)
    (manhattan_metrics : List (String × AppMetrics))
    (text_segments : List Segment) : Report :=
  let suspicious_analysis := analyze_suspicious_commands l
  let outlier_counts := calculate_outlier_count l 3
  let total_typing_segments := (text_segments.filter isTypingSeg).length
  let suspicious_typing_segments :=
    (text_segments.filter (fun s => isTypingSeg s && segSuspicious s)).length
  let suspicious_typing_ratio :=
    if 0 < total_typing_segments then
      (suspicious_typing_segments : ℚ) / total_typing_segments * 100
    else 0
  let is_suspicious :=
    (decide (5 < suspicious_analysis.suspicious_percentage) ||
      decide (0 < suspicious_analysis.total_commands)) ||
    (decide ((2005/10000 : ℚ) ^ 2 < typing_metrics.hold_time_var) ||
      decide ((3005/10000 : ℚ) ^ 2 < typing_metrics.flight_time_var)) ||
    decide (5 < manhattan_metrics.length) ||
    decide (30 < suspicious_typing_ratio) ||
    (decide (5 < outlier_counts.hold_time_outliers) ||
      decide (5 < outlier_counts.flight_time_outliers))
  { typing_metrics := typing_metrics
    suspicious_commands := suspicious_analysis
    application_metrics := manhattan_metrics
    text_segments := text_segments
    is_suspicious := is_suspicious
    suspicious_typing_ratio := pyRound2 suspicious_typing_ratio
    outlier_counts := outlier_counts
    conclusion :=
      if is_suspicious then "ATENÇÃO NECESSÁRIA" else "COMPORTAMENTO NORMAL" }

/-- Entry point of `generate_report` (lines 314–318): the typing
metrics, the per-application metrics and the segmenter each run first
and each propagates a raised exception; the rest of the report body is
pure. -/
def generate_report (l : List Event) : Option Report :=
  (calculate_typing_metrics l).bind (fun typing_metrics =>
    (calculate_manhattan_distance l).bind (fun manhattan_metrics =>
      (analyze_text_segments l).map (fun text_segments =>
        buildReport l typing_metrics manhattan_metrics text_segments)))

/-! ## Basic numeric lemmas -/

lemma listMean_nil : listMean [] = 0 := by simp [listMean]

lemma listVar_nil : listVar [] = 0 := by simp [listVar]

lemma pyRound3_zero : pyRound3 0 = 0 := by with_unfolding_all decide

lemma listMean_const (xs : List ℚ) (c : ℚ) (h : ∀ x ∈ xs, x = c) (hne : xs ≠ []) :
    listMean xs = c := by
  have hlen : (xs.length : ℚ) ≠ 0 := by
    simpa [Nat.cast_ne_zero] using fun h' => hne (List.length_eq_zero.mp h')
  have hsum := List.sum_eq_card_nsmul xs c h
  rw [listMean, hsum, nsmul_eq_mul, mul_comm, mul_div_assoc, div_self hlen, mul_one]

lemma listVar_const (xs : List ℚ) (c : ℚ) (h : ∀ x ∈ xs, x = c) : listVar xs = 0 := by
  rcases eq_or_ne xs [] with rfl | hne
  · exact listVar_nil
  · have hmean := listMean_const xs c h hne
    rw [listVar]
    have : (xs.map (fun x => (x - listMean xs) ^ 2)).sum = 0 := by
      apply List.sum_eq_zero
      intro y hy
      obtain ⟨x, hx, rfl⟩ := List.mem_map.mp hy
      rw [hmean, h x hx, sub_self]
      ring
    rw [this, zero_div]

/-! ## Claim C1 -/

/-- Claim C1: for every log, the report's `conclusion` equals
`ATENÇÃO NECESSÁRIA` (the source's ATTENTION_NEEDED value) if and only
if `is_suspicious` is true, and equals `COMPORTAMENTO NORMAL`
otherwise; `conclusion` is the deterministic image of `is_suspicious`,
never computed independently. -/
theorem claim_C1 (l : List Event) (r : Report) (h : generate_report l = some r) :
    r.conclusion =
        (if r.is_suspicious then "ATENÇÃO NECESSÁRIA" else "COMPORTAMENTO NORMAL") ∧
      (r.conclusion = "ATENÇÃO NECESSÁRIA" ↔ r.is_suspicious = true) := by
  obtain ⟨tm, htm, h1⟩ := Option.bind_eq_some.mp h
  obtain ⟨am, ham, hmap⟩ := Option.bind_eq_some.mp h1
  obtain ⟨segs, hsegs, hr⟩ := Option.map_eq_some'.mp hmap
  subst hr
  refine ⟨rfl, ?_⟩
  have key : ∀ b : Bool,
      ((if b then "ATENÇÃO NECESSÁRIA" else "COMPORTAMENTO NORMAL") =
        "ATENÇÃO NECESSÁRIA") ↔ b = true := by decide
  exact key _

/-- The all-zero metrics returned on a log with no hold-carrying
events. -/
def zeroMetrics : TypingMetrics :=
  { hold_time_avg := 0, hold_time_var := 0
    flight_time_avg := 0, flight_time_var := 0, total_events := 0 }

/-- Witness for C1 at the empty log. -/
theorem claim_C1_witness :
    (buildReport [] zeroMetrics [] []).conclusion =
        (if (buildReport [] zeroMetrics [] []).is_suspicious then "ATENÇÃO NECESSÁRIA"
          else "COMPORTAMENTO NORMAL") ∧
      ((buildReport [] zeroMetrics [] []).conclusion = "ATENÇÃO NECESSÁRIA" ↔
        (buildReport [] zeroMetrics [] []).is_suspicious = true) :=
  claim_C1 [] (buildReport [] zeroMetrics [] []) rfl

/-! ## Claim C3 -/

/-- A log whose single event carries a `flight_time` but no
`hold_time`. -/
def flightOnlyLog : List Event :=
  [{ timestamp := some 0, key := none, command_type := none,
     hold_time := none, flight_time := some (some 1), application := none }]

/-- Counterexample to claim C3: on a log whose single event has
`flight_time = 1` and no `hold_time`, `calculate_typing_metrics`
returns metrics with `flight_time_avg = 0`, not the rounded mean `1`
of the flight-time series of all events with a non-null `flight_time`:
the flight statistics are *not* computed independently of
`hold_time`. -/
theorem claim_C3_counterexample :
    flightOnlyLog.map (fun e => (e.hold_time, e.flightVal)) = [(none, some 1)] ∧
      (calculate_typing_metrics flightOnlyLog).map (fun tm => tm.flight_time_avg) =
        some 0 ∧
      pyRound3 (listMean (flightSeries flightOnlyLog)) = 1 ∧
      (calculate_typing_metrics flightOnlyLog).map (fun tm => tm.flight_time_avg) ≠
        some (pyRound3 (listMean (flightSeries flightOnlyLog))) := by
  with_unfolding_all decide

/-- Claim C3 as amended: the whole of `calculate_typing_metrics` —
including whether it raises — is a function of the events carrying a
non-null `hold_time` alone, and whenever it returns, the flight
statistics are the rounded mean and the population variance of the
`flight_time` values of *those* events (not of all events with a
non-null `flight_time`). -/
theorem claim_C3 (l : List Event) :
    calculate_typing_metrics l =
        calculate_typing_metrics (l.filter (fun e => e.hold_time.isSome)) ∧
      ∀ tm, calculate_typing_metrics l = some tm →
        tm.flight_time_avg =
            pyRound3 (listMean (flightSeries (l.filter (fun e => e.hold_time.isSome)))) ∧
          tm.flight_time_var =
            listVar (flightSeries (l.filter (fun e => e.hold_time.isSome))) := by
  constructor
  · simp only [calculate_typing_metrics, List.filter_filter, Bool.and_self]
  · intro tm htm
    by_cases hv : (l.filter (fun e => e.hold_time.isSome)).isEmpty
    · simp only [calculate_typing_metrics, hv, if_pos, Option.some_inj] at htm
      rw [List.isEmpty_iff] at hv
      subst htm
      simp [flightSeries, hv, listMean_nil, listVar_nil, pyRound3_zero]
    · by_cases ha : (l.filter (fun e => e.hold_time.isSome)).all
          (fun e => e.flight_time.isSome)
      · simp only [calculate_typing_metrics, hv, ha, Bool.false_eq_true, if_neg,
          not_false_eq_true, if_pos, Option.some_inj] at htm
        subst htm
        by_cases hf : ((l.filter (fun e => e.hold_time.isSome)).filterMap
            (fun e => e.flightVal)).isEmpty
        · rw [List.isEmpty_iff] at hf
          simp [flightSeries, hf, listMean_nil, listVar_nil]
        · simp [flightSeries, hf]
      · simp only [calculate_typing_metrics, hv, ha, Bool.false_eq_true, if_neg,
          not_false_eq_true] at htm
        exact absurd htm (by simp)

/-- A log whose single event carries both a `hold_time` and a
`flight_time`. -/
def c3Log : List Event :=
  [{ timestamp := some 0, key := some "a", command_type := none,
     hold_time := some 1, flight_time := some (some 2), application := none }]

/-- Witness for C3 on a one-event log with both fields present. -/
theorem claim_C3_witness :
    ({ hold_time_avg := 1, hold_time_var := 0, flight_time_avg := 2,
       flight_time_var := 0, total_events := 1 } : TypingMetrics).flight_time_avg =
        pyRound3 (listMean (flightSeries (c3Log.filter (fun e => e.hold_time.isSome)))) ∧
      ({ hold_time_avg := 1, hold_time_var := 0, flight_time_avg := 2,
         flight_time_var := 0, total_events := 1 } : TypingMetrics).flight_time_var =
        listVar (flightSeries (c3Log.filter (fun e => e.hold_time.isSome))) :=
  (claim_C3 c3Log).2 _ (by with_unfolding_all rfl)

/-! ## Claim C6 -/

/-- Claim C6: the per-segment suspicion test returns false when the
buffer has fewer than 2 contributing events or either of the segment's
hold/flight series is empty, and otherwise returns true exactly when
the Manhattan distance of the segment means from the baseline exceeds
`(base_hold + base_flight) * 0.5`. -/
theorem claim_C6 (events : List Event) (bh bf : ℚ) :
    analyze_segment_manhattan events bh bf = true ↔
      2 ≤ events.length ∧
        events.filterMap (fun e => e.hold_time) ≠ [] ∧
        events.filterMap (fun e => e.flightVal) ≠ [] ∧
        (bh + bf) * (1/2) <
          |listMean (events.filterMap (fun e => e.hold_time)) - bh| +
            |listMean (events.filterMap (fun e => e.flightVal)) - bf| := by
  by_cases h1 : events.length < 2
  · simp only [analyze_segment_manhattan, h1, if_true]
    constructor
    · intro hf; exact absurd hf (by simp)
    · intro hc; omega
  · rw [Nat.not_lt] at h1
    by_cases h2 : events.filterMap (fun e => e.hold_time) = []
    · simp [analyze_segment_manhattan, h2, List.isEmpty_iff, h1, Nat.lt_irrefl]
    · by_cases h3 : events.filterMap (fun e => e.flightVal) = []
      · simp [analyze_segment_manhattan, h2, h3, List.isEmpty_iff, h1, Nat.lt_irrefl]
      · simp [analyze_segment_manhattan, h2, h3, List.isEmpty_iff, h1, Nat.not_lt.mpr h1]

/-! ## Claim C8 -/

/-- Claim C8: the outlier detector reports 0 outliers for a hold or
flight series with fewer than 2 samples, and 0 outliers for a constant
(zero-variance) series, for every threshold. -/
theorem claim_C8 (l : List Event) (t : ℚ) :
    ((holdSeries l).length < 2 →
        (calculate_outlier_count l t).hold_time_outliers = 0) ∧
      ((flightSeries l).length < 2 →
        (calculate_outlier_count l t).flight_time_outliers = 0) ∧
      (∀ c, (∀ x ∈ holdSeries l, x = c) →
        (calculate_outlier_count l t).hold_time_outliers = 0) ∧
      (∀ c, (∀ x ∈ flightSeries l, x = c) →
        (calculate_outlier_count l t).flight_time_outliers = 0) := by
  refine ⟨?_, ?_, ?_, ?_⟩
  · intro h
    simp only [calculate_outlier_count]
    rw [if_neg (by omega)]
  · intro h
    simp only [calculate_outlier_count]
    rw [if_neg (by omega)]
  · intro c hc
    simp only [calculate_outlier_count]
    by_cases hl : 1 < (holdSeries l).length
    · rw [if_pos hl, zscoreOutlierCount, if_pos (listVar_const _ c hc)]
    · rw [if_neg hl]
  · intro c hc
    simp only [calculate_outlier_count]
    by_cases hl : 1 < (flightSeries l).length
    · rw [if_pos hl, zscoreOutlierCount, if_pos (listVar_const _ c hc)]
    · rw [if_neg hl]

/-- A log of two events with identical hold and flight times. -/
def constLog : List Event :=
  [{ timestamp := some 0, key := some "a", command_type := none,
     hold_time := some 1, flight_time := some (some 1), application := none },
   { timestamp := some 1, key := some "b", command_type := none,
     hold_time := some 1, flight_time := some (some 1), application := none }]

/-- Witness for C8 on a constant two-sample series. -/
theorem claim_C8_witness :
    (calculate_outlier_count constLog 3).hold_time_outliers = 0 ∧
      (calculate_outlier_count constLog 3).flight_time_outliers = 0 :=
  ⟨(claim_C8 constLog 3).2.2.1 1 (by decide),
   (claim_C8 constLog 3).2.2.2 1 (by with_unfolding_all decide)⟩

/-! ## Claim C2 -/

lemma segRun_none_of_bad_ts (bh bf : ℚ) :
    ∀ (l : List Event) (s : SegState), (∃ e ∈ l, e.timestamp = none) →
      segRun bh bf l s = none := by
  intro l
  induction l with
  | nil =>
    intro s h
    obtain ⟨e, he, _⟩ := h
    exact absurd he (List.not_mem_nil e)
  | cons a rest ih =>
    intro s h
    cases hts : a.timestamp with
    | none => simp [segRun, List.foldlM_cons, segStep, hts]
    | some t =>
      obtain ⟨e, he, hbad⟩ := h
      have hrest : e ∈ rest := by
        rcases List.mem_cons.mp he with rfl | hr
        · rw [hts] at hbad; exact absurd hbad (by simp)
        · exact hr
      cases hstep : segStep bh bf s a with
      | none => simp [segRun, List.foldlM_cons, hstep]
      | some s1 =>
        have := ih s1 ⟨e, hrest, hbad⟩
        simp only [segRun, List.foldlM_cons, hstep] at *
        simpa using this

/-- Claim C2 as amended: the command analyzer skips a pairwise
computation whose timestamps do not parse (the pair contributes `0`),
and the command-analysis and outlier computations are total; but the
metrics raise a `KeyError` (return `none`) exactly when some
hold-carrying event lacks the `flight_time` key, and the segmenter
parses every event's timestamp unguarded, so one missing or
unparsable timestamp anywhere in the log makes
`analyze_text_segments` raise instead of skipping that event. -/
theorem claim_C2 (l : List Event) :
    (calculate_typing_metrics l = none ↔
        l.filter (fun e => e.hold_time.isSome) ≠ [] ∧
          ∃ e ∈ l.filter (fun e => e.hold_time.isSome), e.flight_time = none) ∧
      ((∃ e ∈ l, e.timestamp = none) → analyze_text_segments l = none) ∧
      ∀ a b : Event, (a.timestamp = none ∨ b.timestamp = none) →
        pairContribution a b = 0 := by
  refine ⟨?_, ?_, ?_⟩
  · by_cases hv : (l.filter (fun e => e.hold_time.isSome)).isEmpty
    · rw [List.isEmpty_iff] at hv
      simp [calculate_typing_metrics, hv]
    · by_cases ha : (l.filter (fun e => e.hold_time.isSome)).all
          (fun e => e.flight_time.isSome)
      · simp only [calculate_typing_metrics, hv, ha, Bool.false_eq_true, if_neg,
          not_false_eq_true, if_pos]
        constructor
        · intro h; exact absurd h (by simp)
        · rintro ⟨-, e, he, hnone⟩
          have hall := List.all_eq_true.mp ha e he
          rw [hnone] at hall
          exact absurd hall (by simp)
      · simp only [calculate_typing_metrics, hv, ha, Bool.false_eq_true, if_neg,
          not_false_eq_true]
        constructor
        · intro _
          refine ⟨by simpa [List.isEmpty_iff] using hv, ?_⟩
          simp only [List.all_eq_true, not_forall] at ha
          obtain ⟨e, he, hne⟩ := ha
          exact ⟨e, he, Option.not_isSome_iff_eq_none.mp hne⟩
        · intro _; trivial
  · intro h
    rw [analyze_text_segments]
    cases hm : calculate_typing_metrics l with
    | none => rfl
    | some tm =>
      show ((segRun tm.hold_time_avg tm.flight_time_avg l initSegState).map _) = none
      rw [segRun_none_of_bad_ts _ _ l _ h]
      rfl
  · intro a b hab
    rcases hab with h | h
    · cases hb : b.timestamp <;> simp [pairContribution, h, hb]
    · cases ha : a.timestamp <;> simp [pairContribution, h, ha]

/-- An event whose timestamp is missing or unparsable. -/
def badTsEvent : Event :=
  { timestamp := none, key := some "b", command_type := none,
    hold_time := none, flight_time := none, application := none }

/-- A log with one unparsable timestamp between two ordinary events. -/
def noTsLog : List Event :=
  [{ timestamp := some 0, key := some "a", command_type := none,
     hold_time := none, flight_time := none, application := none },
   badTsEvent,
   { timestamp := some 1, key := some "c", command_type := none,
     hold_time := none, flight_time := none, application := none }]

/-- A log whose single event carries a `hold_time` but no
`flight_time` key at all. -/
def holdNoFlightLog : List Event :=
  [{ timestamp := some 0, key := some "a", command_type := none,
     hold_time := some 1, flight_time := none, application := none }]

/-- Counterexample to claim C2 as stated: on a log whose middle event
has an unparsable timestamp, the segmenter raises (returns `none`)
instead of completing and skipping only the affected event; and on a
log whose single event carries a `hold_time` but no `flight_time` key,
the metrics raise (return `none`) instead of completing. -/
theorem claim_C2_counterexample :
    noTsLog.map (fun e => e.timestamp) = [some 0, none, some 1] ∧
      analyze_text_segments noTsLog = none ∧
      holdNoFlightLog.map (fun e => (e.hold_time, e.flight_time)) =
        [(some 1, none)] ∧
      calculate_typing_metrics holdNoFlightLog = none :=
  ⟨rfl, rfl, rfl, rfl⟩

/-- Witness for C2: the metrics raise on the hold-without-flight log
and the segmenter raises on the single-event bad-timestamp log. -/
theorem claim_C2_witness :
    calculate_typing_metrics holdNoFlightLog = none ∧
      analyze_text_segments [badTsEvent] = none :=
  ⟨(claim_C2 holdNoFlightLog).1.mpr (by with_unfolding_all decide),
   (claim_C2 [badTsEvent]).2.1 ⟨badTsEvent, List.mem_singleton.mpr rfl, rfl⟩⟩

/-! ## Claim C9 -/

lemma bumpApp_mem (acc : List (String × List Event)) (a : String) (e : Event) :
    ∀ p ∈ bumpApp acc a e,
      p ∈ acc ∨ (∃ es, p = (a, es ++ [e]) ∧ (a, es) ∈ acc) ∨ p = (a, [e]) := by
  induction acc with
  | nil =>
    intro p hp
    simp only [bumpApp, List.mem_singleton] at hp
    exact Or.inr (Or.inr hp)
  | cons q rest ih =>
    intro p hp
    obtain ⟨b, es⟩ := q
    by_cases hb : b = a
    · subst hb
      have hp2 : p ∈ (b, es ++ [e]) :: rest := by
        simpa [bumpApp] using hp
      rcases List.mem_cons.mp hp2 with h | hp'
      · exact Or.inr (Or.inl ⟨es, h, List.mem_cons_self _ _⟩)
      · exact Or.inl (List.mem_cons_of_mem _ hp')
    · have hp2 : p ∈ (b, es) :: bumpApp rest a e := by
        simpa [bumpApp, hb] using hp
      rcases List.mem_cons.mp hp2 with h | hp'
      · exact Or.inl (h ▸ List.mem_cons_self _ _)
      · rcases ih p hp' with h | ⟨es', he', hmem⟩ | h
        · exact Or.inl (List.mem_cons_of_mem _ h)
        · exact Or.inr (Or.inl ⟨es', he', List.mem_cons_of_mem _ hmem⟩)
        · exact Or.inr (Or.inr h)

lemma groupByApp_inv :
    ∀ (l : List Event) (acc : List (String × List Event)) (pre : List Event),
      (∀ p ∈ acc, List.Sublist p.2 pre ∧ ∀ e ∈ p.2, appOf e = p.1) →
      ∀ p ∈ l.foldl (fun acc e => bumpApp acc (appOf e) e) acc,
        List.Sublist p.2 (pre ++ l) ∧ ∀ e ∈ p.2, appOf e = p.1 := by
  intro l
  induction l with
  | nil =>
    intro acc pre hacc p hp
    simpa using hacc p hp
  | cons e rest ih =>
    intro acc pre hacc p hp
    rw [List.foldl_cons] at hp
    have hacc' : ∀ q ∈ bumpApp acc (appOf e) e,
        List.Sublist q.2 (pre ++ [e]) ∧ ∀ x ∈ q.2, appOf x = q.1 := by
      intro q hq
      rcases bumpApp_mem acc (appOf e) e q hq with hq' | ⟨es, rfl, hmem⟩ | rfl
      · obtain ⟨hs, hap⟩ := hacc q hq'
        exact ⟨hs.trans (List.sublist_append_left pre [e]), hap⟩
      · obtain ⟨hs, hap⟩ := hacc _ hmem
        refine ⟨List.Sublist.append hs (List.Sublist.refl [e]), ?_⟩
        intro x hx
        rcases List.mem_append.mp hx with h | h
        · exact hap x h
        · rw [List.mem_singleton.mp h]
      · refine ⟨List.sublist_append_right pre [e], ?_⟩
        intro x hx
        rw [List.mem_singleton.mp hx]
    have := ih (bumpApp acc (appOf e) e) (pre ++ [e]) hacc' p hp
    simpa [List.append_assoc] using this

lemma groupByApp_spec (l : List Event) :
    ∀ p ∈ groupByApp l, List.Sublist p.2 l ∧ ∀ e ∈ p.2, appOf e = p.1 := by
  intro p hp
  have := groupByApp_inv l [] [] (by simp) p (by simpa [groupByApp] using hp)
  simpa using this

lemma appMetricsLoop_mem :
    ∀ (gs : List (String × List Event)) (res : List (String × AppMetrics)),
      appMetricsLoop gs = some res →
      ∀ p ∈ res, ∃ es, (p.1, es) ∈ gs ∧ 2 ≤ es.length := by
  intro gs
  induction gs with
  | nil =>
    intro res h p hp
    simp only [appMetricsLoop, Option.some.injEq] at h
    subst h
    exact absurd hp (List.not_mem_nil p)
  | cons g rest ih =>
    intro res h p hp
    obtain ⟨a, es⟩ := g
    by_cases hlen : 2 ≤ es.length
    · simp only [appMetricsLoop] at h
      rw [if_pos hlen] at h
      cases hm : appMetricsOf es with
      | none => rw [hm] at h; exact absurd h (by simp)
      | some m =>
        rw [hm, Option.map_eq_some'] at h
        obtain ⟨r', hr', hres⟩ := h
        subst hres
        rcases List.mem_cons.mp hp with rfl | hp'
        · exact ⟨es, List.mem_cons_self _ _, hlen⟩
        · obtain ⟨es', hmem, hl⟩ := ih r' hr' p hp'
          exact ⟨es', List.mem_cons_of_mem _ hmem, hl⟩
    · simp only [appMetricsLoop] at h
      rw [if_neg hlen] at h
      obtain ⟨es', hmem, hl⟩ := ih res h p hp
      exact ⟨es', List.mem_cons_of_mem _ hmem, hl⟩

/-- Claim C9: every application in the report's per-application metrics
map has at least 2 events in the log, so the application-diversity
trigger of the verdict counts only such applications. -/
theorem claim_C9 (l : List Event) (r : Report) (h : generate_report l = some r) :
    ∀ p ∈ r.application_metrics, 2 ≤ (l.filter (fun e => appOf e = p.1)).length := by
  obtain ⟨tm, htm, h1'⟩ := Option.bind_eq_some.mp h
  obtain ⟨am, ham, hmap⟩ := Option.bind_eq_some.mp h1'
  obtain ⟨segs, hsegs, hr⟩ := Option.map_eq_some'.mp hmap
  subst hr
  intro p hp
  have hpam : p ∈ am := hp
  obtain ⟨es, hmem, hlen⟩ := appMetricsLoop_mem (groupByApp l) am ham p hpam
  obtain ⟨hsub, happ⟩ := groupByApp_spec l (p.1, es) hmem
  have h1 : es.filter (fun e => appOf e = p.1) = es :=
    List.filter_eq_self.mpr (fun x hx => by simpa using happ x hx)
  calc 2 ≤ es.length := hlen
    _ = (es.filter (fun e => appOf e = p.1)).length := by rw [h1]
    _ ≤ (l.filter (fun e => appOf e = p.1)).length := (hsub.filter _).length_le

/-- A log of two events in the same application. -/
def appLog : List Event :=
  [{ timestamp := some 0, key := some "a", command_type := none,
     hold_time := none, flight_time := none, application := some "term" },
   { timestamp := some 1, key := some "b", command_type := none,
     hold_time := none, flight_time := none, application := some "term" }]

/-- The report produced on `appLog`. -/
def appReport : Report :=
  buildReport appLog zeroMetrics
    [("term", { duration := 1, typing_rate := 2, suspicious_ratio := 0, event_count := 2 })]
    [Segment.typing "ab" (some 0) (some 1) false]

/-- Witness for C9 on `appLog`. -/
theorem claim_C9_witness : 2 ≤ (appLog.filter (fun e => appOf e = "term")).length :=
  claim_C9 appLog appReport (by with_unfolding_all decide)
    ("term", { duration := 1, typing_rate := 2, suspicious_ratio := 0, event_count := 2 })
    (by with_unfolding_all decide)

/-! ## Commands emitted by the segmenter (claims C10 and C4) -/

/-- The command segments of a segment list, in order, as
(command, time) pairs. -/
def commandsOf (segs : List Segment) : List (String × ℚ) :=
  segs.filterMap (fun s =>
    match s with
    | Segment.command c t => some (c, t)
    | Segment.typing _ _ _ _ => none)

/-- The command token a combo-firing event contributes. -/
def comboTok (e : Event) : String × ℚ :=
  (commandNameOf e.key, e.timestamp.getD 0)

/-- The command tokens the segmenter loop emits from a given
`last_was_ctrl` flag, read off locally from the event list: a modifier
sets the flag, a c/v/x key under a set flag fires a command, and any
other event clears the flag. -/
def commandTokens : Bool → List Event → List (String × ℚ)
  | _, [] => []
  | flag, e :: rest =>
      if isCtrlKey e.key then commandTokens true rest
      else if flag && isCvxKey e.key then comboTok e :: commandTokens false rest
      else commandTokens false rest

/-- The c/v/x-keyed events that immediately follow a ctrl/cmd-modifier
event in the log. -/
def cvxAfterCtrl : List Event → List Event
  | p :: c :: rest =>
      (if isCtrlKey p.key && isCvxKey c.key then [c] else []) ++ cvxAfterCtrl (c :: rest)
  | _ => []

lemma isCvxKey_ctrl_false (k : Option String) (h : isCvxKey k = true) :
    isCtrlKey k = false := by
  cases k with
  | none => simp [isCvxKey] at h
  | some s =>
    simp only [isCvxKey, List.mem_cons, List.mem_singleton, decide_eq_true_eq,
      List.not_mem_nil, or_false] at h
    rcases h with rfl | rfl | rfl <;> decide

lemma commandsOf_append (xs ys : List Segment) :
    commandsOf (xs ++ ys) = commandsOf xs ++ commandsOf ys := by
  simp [commandsOf, List.filterMap_append]

lemma commandsOf_flush (bh bf : ℚ) (s : SegState) :
    commandsOf (flushState bh bf s).segments = commandsOf s.segments := by
  unfold flushState
  split
  · rfl
  · simp [commandsOf_append, commandsOf]

lemma flushState_lastWasCtrl (bh bf : ℚ) (s : SegState) :
    (flushState bh bf s).lastWasCtrl = s.lastWasCtrl := by
  unfold flushState
  split <;> rfl

lemma commandsOf_applyGap (bh bf t : ℚ) (s : SegState) :
    commandsOf (applyGap bh bf t s).segments = commandsOf s.segments := by
  unfold applyGap
  cases s.lastEventTime with
  | none => rfl
  | some lt =>
    dsimp only
    by_cases hgap : 2 < t - lt
    · rw [if_pos hgap]
      show commandsOf (flushState bh bf s).segments = commandsOf s.segments
      exact commandsOf_flush bh bf s
    · rw [if_neg hgap]

lemma applyGap_lastWasCtrl (bh bf t : ℚ) (s : SegState) :
    (applyGap bh bf t s).lastWasCtrl = s.lastWasCtrl := by
  unfold applyGap
  cases s.lastEventTime with
  | none => rfl
  | some lt =>
    dsimp only
    by_cases hgap : 2 < t - lt
    · rw [if_pos hgap]
      show (flushState bh bf s).lastWasCtrl = s.lastWasCtrl
      exact flushState_lastWasCtrl bh bf s
    · rw [if_neg hgap]

lemma appendKey_segments (fk : String) (e : Event) (s : SegState) :
    (appendKey fk e s).segments = s.segments := by
  unfold appendKey
  split <;> rfl

lemma appendKey_lastWasCtrl (fk : String) (e : Event) (s : SegState) :
    (appendKey fk e s).lastWasCtrl = s.lastWasCtrl := by
  unfold appendKey
  split <;> rfl

lemma ordinaryStep_commandsOf (bh bf t : ℚ) (e : Event) (s : SegState) :
    commandsOf (ordinaryStep bh bf t e s).segments = commandsOf s.segments := by
  unfold ordinaryStep
  by_cases hkey : keyTruthy e.key
  · simp only [hkey, if_true]
    rw [appendKey_segments, commandsOf_applyGap]
    split <;> rfl
  · simp only [hkey, Bool.false_eq_true, if_false]

lemma ordinaryStep_lastWasCtrl (bh bf t : ℚ) (e : Event) (s : SegState) :
    (ordinaryStep bh bf t e s).lastWasCtrl = false := by
  unfold ordinaryStep
  by_cases hkey : keyTruthy e.key
  · simp only [hkey, if_true]
    show (appendKey _ e (applyGap bh bf t _)).lastWasCtrl = false
    rw [appendKey_lastWasCtrl, applyGap_lastWasCtrl]
    split <;> rfl
  · simp only [hkey, Bool.false_eq_true, if_false]

lemma segRun_commandsOf (bh bf : ℚ) :
    ∀ (l : List Event) (s s' : SegState), segRun bh bf l s = some s' →
      commandsOf s'.segments = commandsOf s.segments ++ commandTokens s.lastWasCtrl l := by
  intro l
  induction l with
  | nil =>
    intro s s' h
    simp only [segRun, List.foldlM_nil] at h
    cases h
    simp [commandTokens]
  | cons e rest ih =>
    intro s s' h
    rw [segRun, List.foldlM_cons] at h
    cases hstep : segStep bh bf s e with
    | none => rw [hstep] at h; exact absurd h (by simp)
    | some s1 =>
      rw [hstep] at h
      have h2 : segRun bh bf rest s1 = some s' := h
      cases hts : e.timestamp with
      | none => simp [segStep, hts] at hstep
      | some t =>
        by_cases hctrl : isCtrlKey e.key
        · have hs1 : s1 = { s with lastWasCtrl := true } := by
            have := hstep
            simp [segStep, hts, hctrl] at this
            exact this.symm
          have hrec := ih s1 s' h2
          rw [hs1] at hrec
          rw [commandTokens, if_pos hctrl]
          exact hrec
        · by_cases hcombo : (s.lastWasCtrl && isCvxKey e.key) = true
          · have hs1 : s1 = { flushState bh bf s with
                segments := (flushState bh bf s).segments ++
                  [Segment.command (commandNameOf e.key) t]
                lastWasCtrl := false } := by
              have := hstep
              simp [segStep, hts, hctrl, hcombo] at this
              exact this.symm
            have hrec := ih s1 s' h2
            rw [hs1] at hrec
            simp only [commandsOf_append, commandsOf_flush] at hrec
            rw [commandTokens, if_neg (by simp [hctrl]), if_pos hcombo]
            rw [hrec]
            simp [commandsOf, comboTok, hts, List.append_assoc]
          · have hs1 : s1 = ordinaryStep bh bf t e s := by
              have := hstep
              simp [segStep, hts, hctrl, hcombo] at this
              exact this.symm
            have hrec := ih s1 s' h2
            rw [hs1, ordinaryStep_commandsOf, ordinaryStep_lastWasCtrl] at hrec
            rw [commandTokens, if_neg (by simp [hctrl]), if_neg (by simp [hcombo])]
            exact hrec


lemma commandTokens_after (p : Event) :
    ∀ l : List Event,
      commandTokens (isCtrlKey p.key) l = (cvxAfterCtrl (p :: l)).map comboTok := by
  intro l
  induction l generalizing p with
  | nil => rfl
  | cons c rest ih =>
    have hstep : cvxAfterCtrl (p :: c :: rest) =
        (if isCtrlKey p.key && isCvxKey c.key then [c] else []) ++
          cvxAfterCtrl (c :: rest) := rfl
    by_cases hc : isCtrlKey c.key
    · have hcvx : isCvxKey c.key = false := by
        cases hx : isCvxKey c.key
        · rfl
        · rw [isCvxKey_ctrl_false c.key hx] at hc
          exact absurd hc (by simp)
      rw [commandTokens, if_pos hc, hstep, hcvx]
      have h2 := ih c
      rw [hc] at h2
      simp [h2]
    · rw [commandTokens, if_neg hc]
      have h2 := ih c
      rw [Bool.not_eq_true] at hc
      rw [hc] at h2
      by_cases hfire : (isCtrlKey p.key && isCvxKey c.key) = true
      · rw [if_pos hfire, hstep, if_pos hfire]
        simp [h2]
      · rw [if_neg hfire, hstep, if_neg hfire]
        simp [h2]

lemma commandTokens_false_eq (l : List Event) :
    commandTokens false l = (cvxAfterCtrl l).map comboTok := by
  cases l with
  | nil => rfl
  | cons e rest =>
    by_cases hc : isCtrlKey e.key
    · rw [commandTokens, if_pos hc]
      have h2 := commandTokens_after e rest
      rw [hc] at h2
      rw [h2]
    · rw [commandTokens, if_neg hc, if_neg (by simp)]
      have h2 := commandTokens_after e rest
      rw [Bool.not_eq_true] at hc
      rw [hc] at h2
      exact h2

lemma analyze_text_segments_commands (l : List Event) (segs : List Segment)
    (h : analyze_text_segments l = some segs) :
    commandsOf segs = (cvxAfterCtrl l).map comboTok := by
  rw [analyze_text_segments] at h
  obtain ⟨tm, htm, hmap⟩ := Option.bind_eq_some.mp h
  rw [Option.map_eq_some'] at hmap
  obtain ⟨s', hrun, hsegs⟩ := hmap
  subst hsegs
  rw [commandsOf_flush]
  have := segRun_commandsOf _ _ l initSegState s' hrun
  simpa [initSegState, commandsOf, commandTokens_false_eq] using this

/-! ## Claim C10 -/

/-- Claim C10: after processing any event whose key is not a ctrl/cmd
modifier — including keyless events — the `last_was_ctrl` flag is
false; consequently the command segments of a successful run are
exactly the c/v/x key events that immediately follow a ctrl/cmd
modifier event, mapped to their command tokens. -/
theorem claim_C10 :
    (∀ (bh bf : ℚ) (s : SegState) (e : Event) (s' : SegState),
        segStep bh bf s e = some s' → isCtrlKey e.key = false →
          s'.lastWasCtrl = false) ∧
      ∀ (l : List Event) (segs : List Segment),
        analyze_text_segments l = some segs →
          commandsOf segs = (cvxAfterCtrl l).map comboTok := by
  constructor
  · intro bh bf s e s' h hctrl
    cases hts : e.timestamp with
    | none => simp [segStep, hts] at h
    | some t =>
      by_cases hcombo : (s.lastWasCtrl && isCvxKey e.key) = true
      · have hs' : s' = { flushState bh bf s with
            segments := (flushState bh bf s).segments ++
              [Segment.command (commandNameOf e.key) t]
            lastWasCtrl := false } := by
          have := h
          simp [segStep, hts, hctrl, hcombo] at this
          exact this.symm
        rw [hs']
      · have hs' : s' = ordinaryStep bh bf t e s := by
          have := h
          simp [segStep, hts, hctrl, hcombo] at this
          exact this.symm
        rw [hs']
        exact ordinaryStep_lastWasCtrl bh bf t e s
  · exact analyze_text_segments_commands

/-- Constructor for a plain key event used by the concrete scenarios. -/
def keyEvent (t : ℚ) (k : String) : Event :=
  { timestamp := some t, key := some k, command_type := none,
    hold_time := none, flight_time := some none, application := none }

/-- A log with typed characters and two ctrl+c combos. -/
def comboLog : List Event :=
  [keyEvent 0 "a", keyEvent 1 "Key.ctrl", keyEvent 2 "c",
   keyEvent 3 "b", keyEvent 4 "Key.ctrl", keyEvent 5 "c"]

/-- Witness for C10 on `comboLog`. -/
theorem claim_C10_witness :
    commandsOf [Segment.typing "a" (some 0) (some 0) false,
        Segment.command "copy" 2,
        Segment.typing "b" (some 3) (some 3) false,
        Segment.command "copy" 5] = (cvxAfterCtrl comboLog).map comboTok :=
  claim_C10.2 comboLog
    [Segment.typing "a" (some 0) (some 0) false,
     Segment.command "copy" 2,
     Segment.typing "b" (some 3) (some 3) false,
     Segment.command "copy" 5]
    (by with_unfolding_all decide)

/-! ## Claim C5 -/

/-- Concatenation of a segment list: the `text` of typing segments and
the `command` of command segments, in order. -/
def flattenSegs : List Segment → String
  | [] => ""
  | Segment.typing txt _ _ _ :: rest => txt ++ flattenSegs rest
  | Segment.command c _ :: rest => c ++ flattenSegs rest

/-- The display token an event contributes when processed as an
ordinary key: its formatted key when the key is truthy, nothing
otherwise. -/
def tokenOf (e : Event) : String :=
  if keyTruthy e.key then format_key (e.key.getD "") else ""

/-- The token stream of the log, read off locally: a modifier
contributes nothing and sets the flag, a c/v/x key under a set flag
contributes its command name, and any other event contributes its
(possibly empty) formatted key. -/
def tokenStream : Bool → List Event → String
  | _, [] => ""
  | flag, e :: rest =>
      if isCtrlKey e.key then tokenStream true rest
      else if flag && isCvxKey e.key then commandNameOf e.key ++ tokenStream false rest
      else tokenOf e ++ tokenStream false rest

lemma stringJoin_append (l : List String) (x : String) :
    String.join (l ++ [x]) = String.join l ++ x := by
  simp [String.join, List.foldl_append]

lemma flattenSegs_append (xs ys : List Segment) :
    flattenSegs (xs ++ ys) = flattenSegs xs ++ flattenSegs ys := by
  induction xs with
  | nil => rw [List.nil_append, flattenSegs, String.empty_append]
  | cons s rest ih =>
    cases s with
    | typing txt a b c =>
      rw [List.cons_append, flattenSegs, flattenSegs, ih, String.append_assoc]
    | command c t =>
      rw [List.cons_append, flattenSegs, flattenSegs, ih, String.append_assoc]

lemma flushState_currentText (bh bf : ℚ) (s : SegState) :
    (flushState bh bf s).currentText = [] := by
  unfold flushState
  by_cases h : s.currentText.isEmpty
  · rw [if_pos h]
    exact List.isEmpty_iff.mp h
  · rw [if_neg h]

lemma flatten_flush (bh bf : ℚ) (s : SegState) :
    flattenSegs (flushState bh bf s).segments =
      flattenSegs s.segments ++ String.join s.currentText := by
  unfold flushState
  by_cases h : s.currentText.isEmpty
  · rw [if_pos h, List.isEmpty_iff.mp h]
    show flattenSegs s.segments = flattenSegs s.segments ++ String.join []
    rw [show String.join [] = "" from rfl, String.append_empty]
  · rw [if_neg h]
    show flattenSegs (s.segments ++ [Segment.typing (String.join s.currentText) _ _ _]) = _
    rw [flattenSegs_append, flattenSegs, flattenSegs, String.append_empty]

lemma appendKey_flatten (fk : String) (e : Event) (s : SegState) :
    flattenSegs (appendKey fk e s).segments ++
        String.join (appendKey fk e s).currentText =
      (flattenSegs s.segments ++ String.join s.currentText) ++ fk := by
  unfold appendKey
  by_cases h : fk = ""
  · rw [if_pos h, h, String.append_empty]
  · rw [if_neg h]
    show flattenSegs s.segments ++ String.join (s.currentText ++ [fk]) = _
    rw [stringJoin_append, String.append_assoc]

lemma applyGap_flatten (bh bf t : ℚ) (s : SegState) :
    flattenSegs (applyGap bh bf t s).segments ++
        String.join (applyGap bh bf t s).currentText =
      flattenSegs s.segments ++ String.join s.currentText := by
  unfold applyGap
  cases s.lastEventTime with
  | none => rfl
  | some lt =>
    dsimp only
    by_cases hgap : 2 < t - lt
    · rw [if_pos hgap]
      show flattenSegs (flushState bh bf s).segments ++
          String.join (flushState bh bf s).currentText = _
      rw [flushState_currentText, flatten_flush]
      show (flattenSegs s.segments ++ String.join s.currentText) ++ String.join [] = _
      rw [show String.join [] = "" from rfl, String.append_empty]
    · rw [if_neg hgap]

lemma ordinaryStep_flatten (bh bf t : ℚ) (e : Event) (s : SegState) :
    flattenSegs (ordinaryStep bh bf t e s).segments ++
        String.join (ordinaryStep bh bf t e s).currentText =
      (flattenSegs s.segments ++ String.join s.currentText) ++ tokenOf e := by
  unfold ordinaryStep
  by_cases hkey : keyTruthy e.key
  · simp only [hkey, if_true]
    have hs2 : flattenSegs (if (({ s with lastWasCtrl := false } : SegState)).currentText.isEmpty
          then { ({ s with lastWasCtrl := false } : SegState) with segmentStartTime := some t }
          else { s with lastWasCtrl := false }).segments ++
        String.join (if (({ s with lastWasCtrl := false } : SegState)).currentText.isEmpty
          then { ({ s with lastWasCtrl := false } : SegState) with segmentStartTime := some t }
          else { s with lastWasCtrl := false }).currentText =
        flattenSegs s.segments ++ String.join s.currentText := by
      split <;> rfl
    rw [show tokenOf e = format_key (e.key.getD "") from by simp [tokenOf, hkey]]
    show flattenSegs (appendKey _ e (applyGap bh bf t _)).segments ++
        String.join (appendKey _ e (applyGap bh bf t _)).currentText = _
    rw [appendKey_flatten, applyGap_flatten, hs2]
  · simp only [hkey, Bool.false_eq_true, if_false]
    rw [show tokenOf e = "" from by simp [tokenOf, hkey], String.append_empty]

lemma segRun_flatten (bh bf : ℚ) :
    ∀ (l : List Event) (s s' : SegState), segRun bh bf l s = some s' →
      flattenSegs s'.segments ++ String.join s'.currentText =
        (flattenSegs s.segments ++ String.join s.currentText) ++
          tokenStream s.lastWasCtrl l := by
  intro l
  induction l with
  | nil =>
    intro s s' h
    simp only [segRun, List.foldlM_nil] at h
    cases h
    rw [tokenStream, String.append_empty]
  | cons e rest ih =>
    intro s s' h
    rw [segRun, List.foldlM_cons] at h
    cases hstep : segStep bh bf s e with
    | none => rw [hstep] at h; exact absurd h (by simp)
    | some s1 =>
      rw [hstep] at h
      have h2 : segRun bh bf rest s1 = some s' := h
      cases hts : e.timestamp with
      | none => simp [segStep, hts] at hstep
      | some t =>
        by_cases hctrl : isCtrlKey e.key
        · have hs1 : s1 = { s with lastWasCtrl := true } := by
            have := hstep
            simp [segStep, hts, hctrl] at this
            exact this.symm
          have hrec := ih s1 s' h2
          rw [hs1] at hrec
          rw [tokenStream, if_pos hctrl]
          exact hrec
        · by_cases hcombo : (s.lastWasCtrl && isCvxKey e.key) = true
          · have hs1 : s1 = { flushState bh bf s with
                segments := (flushState bh bf s).segments ++
                  [Segment.command (commandNameOf e.key) t]
                lastWasCtrl := false } := by
              have := hstep
              simp [segStep, hts, hctrl, hcombo] at this
              exact this.symm
            have hrec := ih s1 s' h2
            rw [hs1] at hrec
            have hseg : flattenSegs ((flushState bh bf s).segments ++
                  [Segment.command (commandNameOf e.key) t]) =
                (flattenSegs s.segments ++ String.join s.currentText) ++
                  commandNameOf e.key := by
              rw [flattenSegs_append, flatten_flush, flattenSegs, flattenSegs,
                String.append_empty]
            rw [show ({ flushState bh bf s with
                segments := (flushState bh bf s).segments ++
                  [Segment.command (commandNameOf e.key) t]
                lastWasCtrl := false } : SegState).currentText =
                (flushState bh bf s).currentText from rfl,
              flushState_currentText] at hrec
            rw [show String.join [] = "" from rfl, String.append_empty] at hrec
            rw [tokenStream, if_neg (by simp [hctrl]), if_pos hcombo]
            rw [hrec, hseg, String.append_assoc]
          · have hs1 : s1 = ordinaryStep bh bf t e s := by
              have := hstep
              simp [segStep, hts, hctrl, hcombo] at this
              exact this.symm
            have hrec := ih s1 s' h2
            rw [hs1, ordinaryStep_lastWasCtrl] at hrec
            rw [ordinaryStep_flatten] at hrec
            rw [tokenStream, if_neg (by simp [hctrl]), if_neg (by simp [hcombo])]
            rw [hrec, String.append_assoc]

/-- Claim C5 as amended: for every log the segmenter handles,
concatenating the `text` of all typing segments and the commands of
all command segments, in order, yields exactly the token stream of the
log, in which a combo-consumed c/v/x key contributes its command name,
any other truthy key contributes its formatted form — which is empty
for modifiers and for unknown `Key.`-named special keys, which
therefore contribute no token — and keyless events contribute
nothing. -/
theorem claim_C5 (l : List Event) (segs : List Segment)
    (h : analyze_text_segments l = some segs) :
    flattenSegs segs = tokenStream false l := by
  rw [analyze_text_segments] at h
  obtain ⟨tm, htm, hmap⟩ := Option.bind_eq_some.mp h
  rw [Option.map_eq_some'] at hmap
  obtain ⟨s', hrun, hsegs⟩ := hmap
  subst hsegs
  rw [flatten_flush]
  have hrec := segRun_flatten _ _ l initSegState s' hrun
  rw [hrec]
  rw [show flattenSegs (initSegState.segments) = "" from rfl,
    show String.join (initSegState.currentText) = "" from rfl,
    show initSegState.lastWasCtrl = false from rfl,
    String.append_empty, String.empty_append]

/-- The modifier keys named by the spec's key-formatting rule
(shift/ctrl/alt/cmd and their left/right variants), stated from the
spec's words for comparison with the code's behaviour. -/
def specModifierKeys : List String :=
  ["Key.shift", "Key.shift_l", "Key.shift_r",
   "Key.ctrl", "Key.ctrl_l", "Key.ctrl_r",
   "Key.alt", "Key.alt_l", "Key.alt_r",
   "Key.cmd", "Key.cmd_l", "Key.cmd_r"]

/-- A log whose single event carries the non-modifier special key
`Key.esc`. -/
def escLog : List Event := [keyEvent 0 "Key.esc"]

/-- Counterexample to claim C5 as stated: a `Key.esc` event is a
non-modifier key event, yet the segmenter produces no segment at all
for it — it contributes zero formatted tokens, not exactly one,
because `_format_key` renders unknown `Key.`-prefixed names to the
empty string and empty formats are dropped from the buffer. -/
theorem claim_C5_counterexample :
    analyze_text_segments escLog = some [] ∧
      escLog.map (fun e => e.key) = [some "Key.esc"] ∧
      "Key.esc" ∉ specModifierKeys :=
  ⟨by with_unfolding_all decide, rfl, by decide⟩

/-- Witness for C5 on `comboLog`. -/
theorem claim_C5_witness :
    flattenSegs [Segment.typing "a" (some 0) (some 0) false,
        Segment.command "copy" 2,
        Segment.typing "b" (some 3) (some 3) false,
        Segment.command "copy" 5] = tokenStream false comboLog :=
  claim_C5 comboLog
    [Segment.typing "a" (some 0) (some 0) false,
     Segment.command "copy" 2,
     Segment.typing "b" (some 3) (some 3) false,
     Segment.command "copy" 5]
    (by with_unfolding_all decide)

/-! ## Claim C7 -/

/-- The parsed timestamp of an event, read off its `some` value. -/
def tsOf (e : Event) : ℚ := e.timestamp.getD 0

/-- An ordinary key event of the C7 scenario: a parseable timestamp, a
`flight_time` key present (the recorder always writes the field,
possibly null, so `calculate_typing_metrics` does not raise), and a
non-empty key that is not a `Key.`-dotted name (hence neither a
modifier nor a special key, and its formatted form is non-empty). -/
def plainEvent (e : Event) : Bool :=
  (e.timestamp.isSome && e.flight_time.isSome) &&
    (match e.key with
     | some s => !(s.startsWith "Key.") && !decide (s = "")
     | none => false)

lemma plain_ts (e : Event) (h : plainEvent e = true) : e.timestamp = some (tsOf e) := by
  cases hts : e.timestamp with
  | none => simp [plainEvent, hts] at h
  | some t => simp [tsOf, hts]

lemma plain_key (e : Event) (h : plainEvent e = true) :
    ∃ s, e.key = some s ∧ s ≠ "" ∧ s.startsWith "Key." = false := by
  cases hk : e.key with
  | none => simp [plainEvent, hk] at h
  | some s =>
    refine ⟨s, rfl, ?_, ?_⟩
    · simp [plainEvent, hk] at h
      exact h.2.2
    · simp [plainEvent, hk] at h
      exact Bool.not_eq_true _ ▸ (by simpa using h.2.1)

lemma plain_flight (e : Event) (h : plainEvent e = true) :
    e.flight_time.isSome = true := by
  simp only [plainEvent, Bool.and_eq_true] at h
  exact h.1.2

lemma plain_truthy (e : Event) (h : plainEvent e = true) : keyTruthy e.key = true := by
  obtain ⟨s, hk, hne, _⟩ := plain_key e h
  simp [keyTruthy, hk, hne]

lemma plain_not_ctrl (e : Event) (h : plainEvent e = true) : isCtrlKey e.key = false := by
  obtain ⟨s, hk, _, hpre⟩ := plain_key e h
  rw [hk]
  by_contra hc
  rw [Bool.not_eq_false] at hc
  have hmem : s ∈ ["Key.ctrl", "Key.ctrl_l", "Key.ctrl_r",
      "Key.cmd", "Key.cmd_l", "Key.cmd_r"] := by
    simpa [isCtrlKey] using hc
  simp only [List.mem_cons, List.not_mem_nil, or_false, List.mem_singleton] at hmem
  rcases hmem with rfl | rfl | rfl | rfl | rfl | rfl <;>
    exact absurd hpre (by with_unfolding_all decide)

lemma format_key_plain_ne (s : String) (hs : s ≠ "") (hpre : s.startsWith "Key." = false) :
    format_key s ≠ "" := by
  unfold format_key
  rw [if_pos (by simp [hpre])]
  by_cases hcvx : s.toLower ∈ ["c", "v", "x"]
  · rw [if_pos hcvx]
    intro hcon
    have := congrArg String.length hcon
    rw [String.length_append, String.length_append] at this
    have h1 : ("[" : String).length = 1 := by with_unfolding_all decide
    have h2 : ("]" : String).length = 1 := by with_unfolding_all decide
    rw [h1, h2, show ("" : String).length = 0 from rfl] at this
    omega
  · rw [if_neg hcvx]
    exact hs

lemma plain_fk_ne (e : Event) (h : plainEvent e = true) :
    format_key (e.key.getD "") ≠ "" := by
  obtain ⟨s, hk, hne, hpre⟩ := plain_key e h
  rw [hk]
  exact format_key_plain_ne s hne hpre

lemma segStep_plain (bh bf : ℚ) (s : SegState) (e : Event)
    (hp : plainEvent e = true)
    (hflag : s.lastWasCtrl = false)
    (hgap : ∀ t0, s.lastEventTime = some t0 → tsOf e - t0 ≤ 2) :
    segStep bh bf s e = some
      { segments := s.segments
        currentText := s.currentText ++ [format_key (e.key.getD "")]
        segmentEvents := s.segmentEvents ++ [e]
        lastEventTime := some (tsOf e)
        segmentStartTime := if s.currentText.isEmpty then some (tsOf e) else s.segmentStartTime
        lastWasCtrl := false } := by
  have hts := plain_ts e hp
  have hctrl := plain_not_ctrl e hp
  have htruthy := plain_truthy e hp
  have hfk := plain_fk_ne e hp
  unfold segStep
  rw [hts]
  dsimp only
  rw [if_neg (by simp [hctrl]), if_neg (by simp [hflag])]
  unfold ordinaryStep
  rw [if_pos htruthy]
  dsimp only
  by_cases hemp : s.currentText.isEmpty
  · rw [if_pos hemp, if_pos hemp]
    unfold applyGap
    dsimp only
    cases hlt : s.lastEventTime with
    | none =>
      dsimp only
      unfold appendKey
      rw [if_neg hfk]
    | some t0 =>
      dsimp only
      rw [if_neg (by have := hgap t0 hlt; intro hcon; linarith)]
      unfold appendKey
      rw [if_neg hfk]
  · rw [if_neg hemp, if_neg hemp]
    unfold applyGap
    dsimp only
    cases hlt : s.lastEventTime with
    | none =>
      dsimp only
      unfold appendKey
      rw [if_neg hfk]
    | some t0 =>
      dsimp only
      rw [if_neg (by have := hgap t0 hlt; intro hcon; linarith)]
      unfold appendKey
      rw [if_neg hfk]

lemma segStep_plain_gap (bh bf : ℚ) (s : SegState) (e : Event) (t0 : ℚ)
    (hp : plainEvent e = true)
    (hflag : s.lastWasCtrl = false)
    (hlt : s.lastEventTime = some t0)
    (hgap : 2 < tsOf e - t0)
    (htext : s.currentText.isEmpty = false) :
    segStep bh bf s e = some
      { segments := s.segments ++
          [Segment.typing (String.join s.currentText) s.segmentStartTime s.lastEventTime
            (analyze_segment_manhattan s.segmentEvents bh bf)]
        currentText := [format_key (e.key.getD "")]
        segmentEvents := [e]
        lastEventTime := some (tsOf e)
        segmentStartTime := some (tsOf e)
        lastWasCtrl := false } := by
  have hts := plain_ts e hp
  have hctrl := plain_not_ctrl e hp
  have htruthy := plain_truthy e hp
  have hfk := plain_fk_ne e hp
  unfold segStep
  rw [hts]
  dsimp only
  rw [if_neg (by simp [hctrl]), if_neg (by simp [hflag])]
  unfold ordinaryStep
  rw [if_pos htruthy]
  dsimp only
  rw [if_neg (by simp [htext])]
  unfold applyGap
  dsimp only
  rw [hlt]
  dsimp only
  rw [if_pos hgap]
  unfold flushState
  rw [if_neg (by simp [htext])]
  dsimp only
  unfold appendKey
  rw [if_neg hfk]
  rfl

lemma segRun_plain (bh bf : ℚ) :
    ∀ (l : List Event) (s : SegState),
      (∀ e ∈ l, plainEvent e = true) →
      s.lastWasCtrl = false →
      List.Chain' (fun a b => tsOf b - tsOf a ≤ 2) l →
      (∀ t0, s.lastEventTime = some t0 → ∀ e0 ∈ l.head?, tsOf e0 - t0 ≤ 2) →
      segRun bh bf l s = some
        { segments := s.segments
          currentText := s.currentText ++ l.map (fun e => format_key (e.key.getD ""))
          segmentEvents := s.segmentEvents ++ l
          lastEventTime :=
            match l.getLast? with
            | some e => some (tsOf e)
            | none => s.lastEventTime
          segmentStartTime :=
            match l.head? with
            | some e => if s.currentText.isEmpty then some (tsOf e) else s.segmentStartTime
            | none => s.segmentStartTime
          lastWasCtrl := false } := by
  intro l
  induction l with
  | nil =>
    intro s hpl hflag hch hhead
    simp only [segRun, List.foldlM_nil, List.map_nil, List.append_nil,
      List.getLast?_nil, List.head?_nil]
    rw [← hflag]
    rfl
  | cons e rest ih =>
    intro s hpl hflag hch hhead
    have hpe : plainEvent e = true := hpl e (List.mem_cons_self e rest)
    have hstep := segStep_plain bh bf s e hpe hflag
      (fun t0 h0 => hhead t0 h0 e (by simp))
    rw [segRun, List.foldlM_cons, hstep]
    rw [List.chain'_cons'] at hch
    have hrec := ih
      { segments := s.segments
        currentText := s.currentText ++ [format_key (e.key.getD "")]
        segmentEvents := s.segmentEvents ++ [e]
        lastEventTime := some (tsOf e)
        segmentStartTime :=
          if s.currentText.isEmpty then some (tsOf e) else s.segmentStartTime
        lastWasCtrl := false }
      (fun x hx => hpl x (List.mem_cons_of_mem e hx)) rfl hch.2
      (by
        intro t0 h0 e0 he0
        have ht0 : t0 = tsOf e := by
          simpa using h0.symm
        subst ht0
        exact hch.1 e0 he0)
    show segRun bh bf rest _ = _
    rw [hrec]
    cases rest with
    | nil =>
      simp only [List.map_nil, List.append_nil, List.getLast?_nil, List.head?_nil,
        List.map_cons, List.getLast?_singleton, List.head?_cons, Option.some.injEq]
    | cons r rs =>
      obtain ⟨x, hx⟩ : ∃ x, (r :: rs).getLast? = some x :=
        Option.isSome_iff_exists.mp (List.getLast?_isSome.mpr (by simp))
      simp only [List.map_cons, List.head?_cons, List.getLast?_cons_cons, hx,
        Option.some.injEq, SegState.mk.injEq]
      and_intros <;> first | rfl | simp [List.append_assoc]

lemma someBindEq {α β : Type} (a : α) (f : α → Option β) : (some a >>= f) = f a := rfl

lemma someDotBindEq {α β : Type} (a : α) (f : α → Option β) :
    Option.bind (some a) f = f a := rfl

/-- When every event of the log carries the `flight_time` key (present
or null), `calculate_typing_metrics` does not raise. -/
lemma calculate_typing_metrics_total (l : List Event)
    (h : ∀ e ∈ l, e.flight_time.isSome = true) :
    ∃ tm, calculate_typing_metrics l = some tm := by
  have ha : (l.filter (fun e => e.hold_time.isSome)).all
      (fun e => e.flight_time.isSome) = true :=
    List.all_eq_true.mpr (fun e he => h e (List.mem_of_mem_filter he))
  refine Option.isSome_iff_exists.mp ?_
  by_cases hv : (l.filter (fun e => e.hold_time.isSome)).isEmpty
  · simp only [calculate_typing_metrics, hv, if_pos, Option.isSome_some]
  · simp only [calculate_typing_metrics, hv, ha, Bool.false_eq_true, if_neg,
      not_false_eq_true, if_pos, Option.isSome_some]

lemma segRun_append (bh bf : ℚ) (l1 l2 : List Event) (s : SegState) :
    segRun bh bf (l1 ++ l2) s =
      (segRun bh bf l1 s).bind (fun s' => segRun bh bf l2 s') := by
  simp [segRun, List.foldlM_append]

/-- Claim C7: on a log of ordinary key events (parseable timestamp,
`flight_time` key present as the recorder writes it, plain non-modifier
key) with exactly one pause of more than 2.0 seconds — between the last
event of `l1` and the first event of `l2`, with all gaps inside `l1`
and `l2` at most 2 seconds — the segmenter produces exactly two typing
segments split at that gap: the first spans `l1` from its first to its
last event, the second spans `l2` from its first to its last event. -/
theorem claim_C7 (l1 l2 : List Event)
    (h1 : ∀ e ∈ l1, plainEvent e = true)
    (h2 : ∀ e ∈ l2, plainEvent e = true)
    (hn1 : l1 ≠ []) (hn2 : l2 ≠ [])
    (hc1 : List.Chain' (fun a b => tsOf b - tsOf a ≤ 2) l1)
    (hc2 : List.Chain' (fun a b => tsOf b - tsOf a ≤ 2) l2)
    (hgap : 2 < tsOf (l2.head hn2) - tsOf (l1.getLast hn1)) :
    ∃ b1 b2,
      analyze_text_segments (l1 ++ l2) = some
        [Segment.typing (String.join (l1.map (fun e => format_key (e.key.getD ""))))
            (some (tsOf (l1.head hn1))) (some (tsOf (l1.getLast hn1))) b1,
         Segment.typing (String.join (l2.map (fun e => format_key (e.key.getD ""))))
            (some (tsOf (l2.head hn2))) (some (tsOf (l2.getLast hn2))) b2] := by
  obtain ⟨tm, htm⟩ := calculate_typing_metrics_total (l1 ++ l2) (by
    intro e he
    rcases List.mem_append.mp he with h | h
    · exact plain_flight e (h1 e h)
    · exact plain_flight e (h2 e h))
  refine ⟨analyze_segment_manhattan l1 tm.hold_time_avg tm.flight_time_avg,
    analyze_segment_manhattan l2 tm.hold_time_avg tm.flight_time_avg, ?_⟩
  rw [analyze_text_segments, htm, someDotBindEq]
  set bh := tm.hold_time_avg with hbh
  set bf := tm.flight_time_avg with hbf
  rw [segRun_append]
  rw [segRun_plain _ _ l1 initSegState h1 rfl hc1
    (by intro t0 h0; simp [initSegState] at h0)]
  rw [List.getLast?_eq_getLast l1 hn1, List.head?_eq_head hn1]
  simp only [initSegState, List.nil_append, List.isEmpty_nil, if_true, Option.some_bind]
  obtain ⟨e2, rs2, rfl⟩ := List.exists_cons_of_ne_nil hn2
  rw [segRun, List.foldlM_cons]
  rw [segStep_plain_gap bh bf _ e2 (tsOf (l1.getLast hn1)) (h2 e2 (by simp)) rfl rfl
    hgap (by simp [hn1])]
  dsimp only
  simp only [List.nil_append]
  have hrun2 := segRun_plain bh bf rs2
    { segments := [Segment.typing
        (String.join (List.map (fun e => format_key (e.key.getD "")) l1))
        (some (tsOf (l1.head hn1))) (some (tsOf (l1.getLast hn1)))
        (analyze_segment_manhattan l1 bh bf)]
      currentText := [format_key (e2.key.getD "")]
      segmentEvents := [e2]
      lastEventTime := some (tsOf e2)
      segmentStartTime := some (tsOf e2)
      lastWasCtrl := false }
    (fun x hx => h2 x (List.mem_cons_of_mem e2 hx)) rfl (List.chain'_cons'.mp hc2).2
    (by
      intro t0 h0 e0 he0
      have ht : t0 = tsOf e2 := by simpa using h0.symm
      subst ht
      exact (List.chain'_cons'.mp hc2).1 e0 he0)
  rw [segRun] at hrun2
  rw [someBindEq]
  rw [hrun2]
  dsimp only
  simp only [Option.map_some']
  rcases rs2 with _ | ⟨r2, rr2⟩
  · simp only [List.map_nil, List.append_nil, List.getLast?_nil, List.head?_nil]
    unfold flushState
    rw [if_neg (by simp)]
    simp [List.getLast, List.head]
  · have hgl : (r2 :: rr2).getLast? = some ((r2 :: rr2).getLast (by simp)) :=
      List.getLast?_eq_getLast _ _
    simp only [hgl, List.head?_cons]
    dsimp only
    unfold flushState
    rw [if_neg (by simp)]
    simp [List.getLast_cons]

/-- First part of the C7 witness log, events 2 seconds or less apart. -/
def c7Log1 : List Event := [keyEvent 0 "a", keyEvent 1 "b"]

/-- Second part of the C7 witness log, beginning more than 2 seconds
after `c7Log1` ends. -/
def c7Log2 : List Event := [keyEvent 4 "d"]

/-- Witness for C7 on a two-then-one event log with a 3-second pause. -/
theorem claim_C7_witness :
    ∃ b1 b2,
      analyze_text_segments (c7Log1 ++ c7Log2) = some
        [Segment.typing "ab" (some 0) (some 1) b1,
         Segment.typing "d" (some 4) (some 4) b2] := by
  obtain ⟨b1, b2, h⟩ := claim_C7 c7Log1 c7Log2
    (by with_unfolding_all decide) (by with_unfolding_all decide)
    (List.cons_ne_nil _ _) (List.cons_ne_nil _ _)
    (by
      refine List.chain'_cons.mpr ⟨?_, ?_⟩
      · with_unfolding_all decide
      · exact List.chain'_singleton _)
    (List.chain'_singleton _)
    (by with_unfolding_all decide)
  refine ⟨b1, b2, ?_⟩
  rw [h]
  with_unfolding_all rfl

/-! ## Claim C4 -/

lemma bumpCount_sum (c : List (String × ℕ)) (k : String) :
    ((bumpCount c k).map Prod.snd).sum = ((c.map Prod.snd).sum) + 1 := by
  induction c with
  | nil => simp [bumpCount]
  | cons q rest ih =>
    obtain ⟨a, n⟩ := q
    by_cases ha : a = k
    · simp [bumpCount, ha, List.map_cons, List.sum_cons]
      omega
    · simp [bumpCount, ha, List.map_cons, List.sum_cons, ih]
      omega

lemma cmdScan_counts (l : List Event) :
    ∀ st : CmdScanState,
      (((l.foldl cmdScanStep st).counts).map Prod.snd).sum =
        ((st.counts.map Prod.snd).sum) +
          (l.filter (fun e => isSuspiciousCmd e.command_type)).length := by
  induction l with
  | nil => intro st; simp
  | cons e rest ih =>
    intro st
    rw [List.foldl_cons, ih]
    by_cases hs : isSuspiciousCmd e.command_type
    · have hstep : (cmdScanStep st e).counts =
          bumpCount st.counts ((e.command_type).getD "") := by
        simp [cmdScanStep, hs]
      rw [hstep, bumpCount_sum]
      simp [List.filter_cons, hs]
      omega
    · have hstep : (cmdScanStep st e).counts = st.counts := by
        unfold cmdScanStep
        rw [if_neg (by simp [hs])]
        split <;> rfl
      rw [hstep]
      simp [List.filter_cons, hs]

lemma total_commands_eq (l : List Event) :
    (analyze_suspicious_commands l).total_commands =
      (l.filter (fun e => isSuspiciousCmd e.command_type)).length := by
  have hc : (commandRuns l).counts =
      (l.foldl cmdScanStep { counts := [], sequences := [], current := [] }).counts := by
    unfold commandRuns
    dsimp only
    split <;> rfl
  show ((commandRuns l).counts.map Prod.snd).sum = _
  rw [hc]
  simpa using cmdScan_counts l { counts := [], sequences := [], current := [] }

/-- A chunk of the C4 scenario: a block of ordinary typed-character
events followed by a ctrl/cmd-modifier event and then a c/v/x key
event (the combo). -/
def chunkEvents (ch : List Event × Event × Event) : List Event :=
  ch.1 ++ [ch.2.1, ch.2.2]

/-- The log formed by the chunks in order. -/
def mkChunkLog (chunks : List (List Event × Event × Event)) : List Event :=
  (chunks.map chunkEvents).flatten

/-- Validity of one chunk: a non-empty block of plain typed characters
with pauses of at most 2 seconds, then a modifier and a c/v/x key
event, both with parseable timestamps and the `flight_time` key
present. -/
def chunkOk (ch : List Event × Event × Event) : Bool :=
  !ch.1.isEmpty && ch.1.all plainEvent &&
    (ch.1.zip ch.1.tail).all (fun p => decide (tsOf p.2 - tsOf p.1 ≤ 2)) &&
    isCtrlKey ch.2.1.key && ch.2.1.timestamp.isSome && ch.2.1.flight_time.isSome &&
    isCvxKey ch.2.2.key && ch.2.2.timestamp.isSome && ch.2.2.flight_time.isSome

/-- The pause between two consecutive chunks, measured between the last
retained key of the first block and the first key of the second block
(modifier and combo events do not update `last_event_time`), is at most
2 seconds. -/
def chunkGapOk (a b : List Event × Event × Event) : Bool :=
  match a.1.getLast?, b.1.head? with
  | some x, some y => decide (tsOf y - tsOf x ≤ 2)
  | _, _ => true

/-- The two segments one valid chunk contributes: a typing segment over
its block and a command segment for its combo. -/
def blockSegs (bh bf : ℚ) (ch : List Event × Event × Event) : List Segment :=
  [Segment.typing (String.join (ch.1.map (fun e => format_key (e.key.getD ""))))
      (ch.1.head?.map tsOf) (ch.1.getLast?.map tsOf)
      (analyze_segment_manhattan ch.1 bh bf),
   Segment.command (commandNameOf ch.2.2.key) (tsOf ch.2.2)]

lemma chain_of_zip_all {α : Type} (R : α → α → Prop) [DecidableRel R] :
    ∀ l : List α, ((l.zip l.tail).all (fun p => decide (R p.1 p.2)) = true) →
      List.Chain' R l
  | [] => fun _ => List.chain'_nil
  | [a] => fun _ => List.chain'_singleton a
  | a :: b :: rest => fun h => by
      rw [show (a :: b :: rest).tail = b :: rest from rfl,
        show ((a :: b :: rest).zip (b :: rest)) = (a, b) :: ((b :: rest).zip rest) from rfl,
        List.all_cons, Bool.and_eq_true] at h
      refine List.chain'_cons.mpr ⟨of_decide_eq_true h.1, ?_⟩
      exact chain_of_zip_all R (b :: rest) (by
        rw [show (b :: rest).tail = rest from rfl]
        exact h.2)

lemma segStep_ctrl (bh bf : ℚ) (s : SegState) (e : Event) (t : ℚ)
    (hts : e.timestamp = some t) (hk : isCtrlKey e.key = true) :
    segStep bh bf s e = some { s with lastWasCtrl := true } := by
  unfold segStep
  rw [hts]
  dsimp only
  rw [if_pos hk]

lemma segStep_combo (bh bf : ℚ) (s : SegState) (e : Event) (t : ℚ)
    (hts : e.timestamp = some t) (hk : isCvxKey e.key = true)
    (hflag : s.lastWasCtrl = true) :
    segStep bh bf s e = some
      { flushState bh bf s with
        segments := (flushState bh bf s).segments ++
          [Segment.command (commandNameOf e.key) t]
        lastWasCtrl := false } := by
  unfold segStep
  rw [hts]
  dsimp only
  rw [if_neg (by simp [isCvxKey_ctrl_false e.key hk]), if_pos (by simp [hflag, hk])]

lemma segRun_chunk (bh bf : ℚ) (block : List Event) (ec ev : Event) (s : SegState)
    (hne : block ≠ [])
    (hpl : ∀ e ∈ block, plainEvent e = true)
    (hch : List.Chain' (fun a b => tsOf b - tsOf a ≤ 2) block)
    (hcK : isCtrlKey ec.key = true) (hcT : ec.timestamp.isSome = true)
    (hvK : isCvxKey ev.key = true) (hvT : ev.timestamp.isSome = true)
    (hcur : s.currentText = []) (hse : s.segmentEvents = [])
    (hflag : s.lastWasCtrl = false)
    (hgap0 : ∀ t0, s.lastEventTime = some t0 → ∀ e0 ∈ block.head?, tsOf e0 - t0 ≤ 2) :
    segRun bh bf (block ++ [ec, ev]) s = some
      { segments := s.segments ++ blockSegs bh bf (block, ec, ev)
        currentText := []
        segmentEvents := []
        lastEventTime := block.getLast?.map tsOf
        segmentStartTime := block.head?.map tsOf
        lastWasCtrl := false } := by
  obtain ⟨tc, htc⟩ := Option.isSome_iff_exists.mp hcT
  obtain ⟨tv, htv⟩ := Option.isSome_iff_exists.mp hvT
  obtain ⟨b0, bs, rfl⟩ := List.exists_cons_of_ne_nil hne
  obtain ⟨bl, hbl⟩ : ∃ x, (b0 :: bs).getLast? = some x :=
    Option.isSome_iff_exists.mp (List.getLast?_isSome.mpr (by simp))
  have htsv : tsOf ev = tv := by simp [tsOf, htv]
  rw [segRun_append, segRun_plain bh bf (b0 :: bs) s hpl hflag hch hgap0, someDotBindEq]
  rw [hcur, hse]
  simp only [List.nil_append, List.isEmpty_nil, if_true, List.head?_cons, hbl]
  rw [segRun, List.foldlM_cons, segStep_ctrl bh bf _ ec tc htc hcK, someBindEq,
    List.foldlM_cons, segStep_combo bh bf _ ev tv htv hvK rfl, someBindEq, List.foldlM_nil]
  unfold flushState
  rw [if_neg (by simp)]
  simp [blockSegs, hbl, htsv, List.append_assoc]

lemma segRun_chunks (bh bf : ℚ) :
    ∀ (chunks : List (List Event × Event × Event)) (s : SegState),
      chunks.all chunkOk = true →
      (chunks.zip chunks.tail).all (fun p => chunkGapOk p.1 p.2) = true →
      s.currentText = [] → s.segmentEvents = [] → s.lastWasCtrl = false →
      (∀ t0, s.lastEventTime = some t0 →
        ∀ ch0 ∈ chunks.head?, ∀ e0 ∈ ch0.1.head?, tsOf e0 - t0 ≤ 2) →
      ∃ s', segRun bh bf (mkChunkLog chunks) s = some s' ∧
        s'.segments = s.segments ++ (chunks.map (blockSegs bh bf)).flatten ∧
        s'.currentText = [] ∧ s'.segmentEvents = [] ∧ s'.lastWasCtrl = false ∧
        s'.lastEventTime = (match chunks.getLast? with
          | some ch => ch.1.getLast?.map tsOf
          | none => s.lastEventTime) := by
  intro chunks
  induction chunks with
  | nil =>
    intro s hok hgap hcur hse hflag hhead
    refine ⟨s, ?_, by simp, hcur, hse, hflag, rfl⟩
    simp [mkChunkLog, segRun]
  | cons ch rest ih =>
    intro s hok hgap hcur hse hflag hhead
    obtain ⟨block, ec, ev⟩ := ch
    rw [List.all_cons, Bool.and_eq_true] at hok
    obtain ⟨hok1, hokr⟩ := hok
    simp only [chunkOk, Bool.and_eq_true] at hok1
    obtain ⟨⟨⟨⟨⟨⟨⟨⟨hbne, hbpl⟩, hbgap⟩, hcK⟩, hcT⟩, hcF⟩, hvK⟩, hvT⟩, hvF⟩ := hok1
    have hne : block ≠ [] := by
      intro hcon
      rw [hcon] at hbne
      simp at hbne
    have hpl : ∀ e ∈ block, plainEvent e = true :=
      fun e he => List.all_eq_true.mp hbpl e he
    have hch : List.Chain' (fun a b => tsOf b - tsOf a ≤ 2) block :=
      chain_of_zip_all _ block hbgap
    have hrunchunk := segRun_chunk bh bf block ec ev s hne hpl hch hcK hcT hvK hvT
      hcur hse hflag
      (fun t0 h0 e0 he0 => hhead t0 h0 (block, ec, ev) (by simp) e0 he0)
    have hlog : mkChunkLog ((block, ec, ev) :: rest) =
        (block ++ [ec, ev]) ++ mkChunkLog rest := by
      simp [mkChunkLog, chunkEvents]
    obtain ⟨bl, hbl⟩ : ∃ x, block.getLast? = some x :=
      Option.isSome_iff_exists.mp (List.getLast?_isSome.mpr hne)
    have hgapr : (rest.zip rest.tail).all (fun p => chunkGapOk p.1 p.2) = true := by
      cases rest with
      | nil => rfl
      | cons r2 rest2 =>
        rw [show (((block, ec, ev) :: r2 :: rest2).zip
              ((block, ec, ev) :: r2 :: rest2).tail) =
            ((block, ec, ev), r2) :: ((r2 :: rest2).zip rest2) from rfl, List.all_cons,
          Bool.and_eq_true] at hgap
        rw [show (r2 :: rest2).tail = rest2 from rfl]
        exact hgap.2
    obtain ⟨s', hrun', hsegs', hcur', hse', hflag', hlet'⟩ := ih
      { segments := s.segments ++ blockSegs bh bf (block, ec, ev)
        currentText := []
        segmentEvents := []
        lastEventTime := block.getLast?.map tsOf
        segmentStartTime := block.head?.map tsOf
        lastWasCtrl := false }
      hokr hgapr rfl rfl rfl
      (by
        intro t0 h0 ch0 hch0 e0 he0
        cases rest with
        | nil => exact absurd hch0 (by simp)
        | cons r2 rest2 =>
          have hch0' : r2 = ch0 :=
            Option.some_inj.mp (Option.mem_def.mp hch0)
          rw [show (((block, ec, ev) :: r2 :: rest2).zip
                ((block, ec, ev) :: r2 :: rest2).tail) =
              ((block, ec, ev), r2) :: ((r2 :: rest2).zip rest2) from rfl, List.all_cons,
            Bool.and_eq_true] at hgap
          have hg1 : (match block.getLast?, r2.1.head? with
              | some x, some y => decide (tsOf y - tsOf x ≤ 2)
              | _, _ => true) = true := hgap.1
          have hhead2 : r2.1.head? = some e0 := by
            rw [hch0']
            exact Option.mem_def.mp he0
          rw [hbl, hhead2] at hg1
          have hle := of_decide_eq_true hg1
          have h0r : block.getLast?.map tsOf = some t0 := h0
          rw [hbl] at h0r
          have h0' : t0 = tsOf bl := by simpa using h0r.symm
          subst h0'
          exact hle)
    refine ⟨s', ?_, ?_, hcur', hse', hflag', ?_⟩
    · rw [hlog, segRun_append, hrunchunk, someDotBindEq]
      exact hrun'
    · rw [hsegs']
      show (s.segments ++ blockSegs bh bf (block, ec, ev)) ++ _ = _
      simp [List.append_assoc]
    · cases rest with
      | nil =>
        rw [hlet']
        rfl
      | cons r2 rest2 =>
        rw [hlet']
        rw [show (((block, ec, ev) :: r2 :: rest2).getLast?) =
          ((r2 :: rest2).getLast?) from List.getLast?_cons_cons]
        obtain ⟨chl, hchl⟩ : ∃ x, (r2 :: rest2).getLast? = some x :=
          Option.isSome_iff_exists.mp (List.getLast?_isSome.mpr (by simp))
        rw [hchl]

lemma commandsOf_blockSegs_flatten (bh bf : ℚ) :
    ∀ chunks : List (List Event × Event × Event),
      commandsOf ((chunks.map (blockSegs bh bf)).flatten) =
        chunks.map (fun ch => (commandNameOf ch.2.2.key, tsOf ch.2.2))
  | [] => rfl
  | ch :: rest => by
      rw [List.map_cons, List.flatten_cons, commandsOf_append,
        commandsOf_blockSegs_flatten bh bf rest]
      rfl

/-- Claim C4 as amended: on a log formed of five chunks — each a
non-empty run of ordinary typed characters with pauses of at most 2
seconds, then a ctrl/cmd modifier immediately followed by a `c` key
event — the typing metrics complete, and the segmenter emits exactly
the alternation of one typing segment and one `copy` command segment
per chunk: 5 command segments with command `copy` interleaved with the
5 typing segments; `total_commands`, however, counts the events whose
`command_type` lies in the suspicious set — it equals 5 exactly when
the log carries 5 such tagged events (e.g. the `c` of each combo
tagged `copy`), not because of the combos themselves. -/
theorem claim_C4 (chunks : List (List Event × Event × Event))
    (h5 : chunks.length = 5)
    (hok : chunks.all chunkOk = true)
    (hgaps : (chunks.zip chunks.tail).all (fun p => chunkGapOk p.1 p.2) = true)
    (hcopy : ∀ ch ∈ chunks, ch.2.2.key = some "c")
    (hcmd : ((mkChunkLog chunks).filter
        (fun e => isSuspiciousCmd e.command_type)).length = 5) :
    ∃ tm, calculate_typing_metrics (mkChunkLog chunks) = some tm ∧
      analyze_text_segments (mkChunkLog chunks) = some
        ((chunks.map (blockSegs tm.hold_time_avg tm.flight_time_avg)).flatten) ∧
      (∀ ch ∈ chunks, blockSegs tm.hold_time_avg tm.flight_time_avg ch =
        [Segment.typing (String.join (ch.1.map (fun e => format_key (e.key.getD ""))))
            (ch.1.head?.map tsOf) (ch.1.getLast?.map tsOf)
            (analyze_segment_manhattan ch.1 tm.hold_time_avg tm.flight_time_avg),
         Segment.command "copy" (tsOf ch.2.2)]) ∧
      (commandsOf
          ((chunks.map (blockSegs tm.hold_time_avg tm.flight_time_avg)).flatten)).length
        = 5 ∧
      (∀ p ∈ commandsOf
          ((chunks.map (blockSegs tm.hold_time_avg tm.flight_time_avg)).flatten),
        p.1 = "copy") ∧
      (analyze_suspicious_commands (mkChunkLog chunks)).total_commands = 5 := by
  have hfl : ∀ e ∈ mkChunkLog chunks, e.flight_time.isSome = true := by
    intro e he
    simp only [mkChunkLog, List.mem_flatten, List.mem_map] at he
    obtain ⟨l', ⟨ch, hch, rfl⟩, hel⟩ := he
    have hok1 := List.all_eq_true.mp hok ch hch
    simp only [chunkOk, Bool.and_eq_true] at hok1
    obtain ⟨⟨⟨⟨⟨⟨⟨⟨hbne, hbpl⟩, hbgap⟩, hcK⟩, hcT⟩, hcF⟩, hvK⟩, hvT⟩, hvF⟩ := hok1
    rcases List.mem_append.mp hel with hb | ht
    · exact plain_flight e (List.all_eq_true.mp hbpl e hb)
    · rcases List.mem_cons.mp ht with rfl | ht2
      · exact hcF
      · rw [List.mem_singleton.mp ht2]
        exact hvF
  obtain ⟨tm, htm⟩ := calculate_typing_metrics_total (mkChunkLog chunks) hfl
  obtain ⟨s', hrun, hsegs, hcur', hse', hflag', -⟩ :=
    segRun_chunks tm.hold_time_avg tm.flight_time_avg chunks initSegState hok hgaps
      rfl rfl rfl
      (by
        intro t0 h0 ch0 hch0 e0 he0
        exact absurd h0 (by simp [initSegState]))
  refine ⟨tm, htm, ?_, ?_, ?_, ?_, ?_⟩
  · rw [analyze_text_segments, htm, someDotBindEq, hrun]
    rw [show Option.map
        (fun s => (flushState tm.hold_time_avg tm.flight_time_avg s).segments) (some s') =
      some ((flushState tm.hold_time_avg tm.flight_time_avg s').segments) from rfl]
    have hnf : flushState tm.hold_time_avg tm.flight_time_avg s' = s' := by
      unfold flushState
      rw [if_pos (by simp [hcur'])]
    rw [hnf, hsegs]
    rw [show initSegState.segments = [] from rfl, List.nil_append]
  · intro ch hch
    rw [blockSegs, hcopy ch hch, commandNameOf, if_pos rfl]
  · rw [commandsOf_blockSegs_flatten, List.length_map, h5]
  · intro p hp
    rw [commandsOf_blockSegs_flatten] at hp
    obtain ⟨ch, hchm, rfl⟩ := List.mem_map.mp hp
    simp [hcopy ch hchm, commandNameOf]
  · rw [total_commands_eq, hcmd]

/-- A log with five ctrl+c combos among typed characters and no
`command_type` fields at all. -/
def c4Log : List Event :=
  [keyEvent 0 "h", keyEvent 1 "Key.ctrl", keyEvent 2 "c",
   keyEvent 3 "i", keyEvent 4 "Key.ctrl", keyEvent 5 "c",
   keyEvent 6 "j", keyEvent 7 "Key.ctrl", keyEvent 8 "c",
   keyEvent 9 "k", keyEvent 10 "Key.ctrl", keyEvent 11 "c",
   keyEvent 12 "m", keyEvent 13 "Key.ctrl", keyEvent 14 "c"]

/-- Counterexample to claim C4 as stated: on a log with exactly five
ctrl-then-c combos among ordinary typed characters, the segmenter does
emit 5 copy command segments, but `total_commands` is 0, not 5 — the
command analyzer counts `command_type`-tagged events, not key combos. -/
theorem claim_C4_counterexample :
    ((analyze_text_segments c4Log).map (fun segs =>
        ((commandsOf segs).length, (commandsOf segs).all (fun p => p.1 = "copy"))) =
      some (5, true)) ∧
      (analyze_suspicious_commands c4Log).total_commands = 0 := by
  with_unfolding_all decide

/-- The `c` key event of a combo, tagged with `command_type = copy` as
the recorder produces it (its `flight_time` key present but null). -/
def cmdCopyEvent (t : ℚ) : Event :=
  { timestamp := some t, key := some "c", command_type := some "copy",
    hold_time := none, flight_time := some none, application := none }

/-- Five chunks — one typed character, then ctrl, then a tagged `c` —
with every pause between retained keys at most 2 seconds. -/
def c4Chunks : List (List Event × Event × Event) :=
  [([keyEvent 0 "h"], keyEvent 0 "Key.ctrl", cmdCopyEvent 1),
   ([keyEvent 2 "i"], keyEvent 2 "Key.ctrl", cmdCopyEvent 3),
   ([keyEvent 4 "j"], keyEvent 4 "Key.ctrl", cmdCopyEvent 5),
   ([keyEvent 6 "k"], keyEvent 6 "Key.ctrl", cmdCopyEvent 7),
   ([keyEvent 8 "m"], keyEvent 8 "Key.ctrl", cmdCopyEvent 9)]

/-- Witness for C4 on `c4Chunks`. -/
theorem claim_C4_witness :
    ∃ tm, calculate_typing_metrics (mkChunkLog c4Chunks) = some tm ∧
      analyze_text_segments (mkChunkLog c4Chunks) = some
        ((c4Chunks.map (blockSegs tm.hold_time_avg tm.flight_time_avg)).flatten) ∧
      (∀ ch ∈ c4Chunks, blockSegs tm.hold_time_avg tm.flight_time_avg ch =
        [Segment.typing (String.join (ch.1.map (fun e => format_key (e.key.getD ""))))
            (ch.1.head?.map tsOf) (ch.1.getLast?.map tsOf)
            (analyze_segment_manhattan ch.1 tm.hold_time_avg tm.flight_time_avg),
         Segment.command "copy" (tsOf ch.2.2)]) ∧
      (commandsOf
          ((c4Chunks.map (blockSegs tm.hold_time_avg tm.flight_time_avg)).flatten)).length
        = 5 ∧
      (∀ p ∈ commandsOf
          ((c4Chunks.map (blockSegs tm.hold_time_avg tm.flight_time_avg)).flatten),
        p.1 = "copy") ∧
      (analyze_suspicious_commands (mkChunkLog c4Chunks)).total_commands = 5 :=
  claim_C4 c4Chunks rfl (by with_unfolding_all decide) (by with_unfolding_all decide)
    (by with_unfolding_all decide) (by with_unfolding_all decide)
